import Mathlib

/-!
Verification development for the `osc8wrap` terminal-output filter.

The Go sources are shallowly embedded:
* bytes are `Nat` (the code only compares them with constants),
* byte strings are `List Nat`,
* Go strings on the linker side are `List Char`,
* fallible operations return `Option`,
* external effects (filesystem stat, symlink resolution, the `git`
  subprocess, the regular-expression engine) are passed in as explicit
  environment parameters and universally quantified in the theorems.

Go `int` arithmetic inside `parseNumber` wraps at 2^64; the embedding
keeps the wrap explicit (`% 18446744073709551616`).  All guards that
consume such numbers compare against small constants or intervals, on
which the unsigned-wrapped value and Go's signed value agree.
-/

/-! ## ANSI tokenizer (`ansi_tokenizer.go`) -/

inductive TokenKind
  | text
  | sgr
  | csi
  | osc8
  | osc
  | dcs
  | other
  | esc
  deriving DecidableEq, Repr

structure Token where
  kind : TokenKind
  data : List Nat
  styled : Bool := false
  isEnd : Bool := false
  deriving DecidableEq, Repr

inductive TState
  | ground
  | escS
  | csiS
  | oscS
  | stCandidate
  | dcsS
  deriving DecidableEq, Repr

/-- `attrs` is the Go `uint16` attribute bitmap (bold = 1, faint = 2,
italic = 4, underline = 8, blink-slow = 16, blink-rapid = 32,
inverse = 64, conceal = 128, strikethrough = 256). -/
structure SgrState where
  fgActive : Bool
  bgActive : Bool
  attrs : Nat
  deriving DecidableEq, Repr

def SgrState.styled (s : SgrState) : Bool :=
  s.fgActive || s.bgActive || s.attrs != 0

def SgrState.reset : SgrState := ⟨false, false, 0⟩

/-- Go `a &^ m` on `uint16` operands. -/
def andNot16 (a m : Nat) : Nat := a &&& (65535 ^^^ m)

structure AnsiTokenizer where
  buf : List Nat
  state : TState
  prevState : TState
  sgr : SgrState
  inOSC8 : Bool
  deriving DecidableEq, Repr

def NewAnsiTokenizer : AnsiTokenizer :=
  { buf := [], state := .ground, prevState := .ground
    sgr := ⟨false, false, 0⟩, inOSC8 := false }

def maxBufferSize : Nat := 4096

def isCSIFinalByte (b : Nat) : Bool := 64 ≤ b && b ≤ 126

def isCSIParamByte (b : Nat) : Bool := 48 ≤ b && b ≤ 63

def isCSIIntermediateByte (b : Nat) : Bool := 32 ≤ b && b ≤ 47

/-- Go `parseNumber`: accumulate decimal digits, ignore other bytes;
the accumulator is a Go `int`, which wraps at 2^64. -/
def parseNumber (s : List Nat) : Nat :=
  s.foldl
    (fun n b =>
      if 48 ≤ b ∧ b ≤ 57 then (n * 10 + (b - 48)) % 18446744073709551616 else n)
    0

/-- Split on `;` (byte 59) keeping empty fields; the result is never empty
(an empty input yields one empty field), mirroring the index loop of
Go `parseCSIParams`. -/
def splitSemi : List Nat → List (List Nat)
  | [] => [[]]
  | b :: rest =>
    if b = 59 then [] :: splitSemi rest
    else
      match splitSemi rest with
      | f :: fs => (b :: f) :: fs
      | [] => [[b]]

def parseCSIParams (params : List Nat) : List Nat :=
  (splitSemi params).map (fun f => if f = [] then 0 else parseNumber f)

/-- Go `skipExtendedColor(codes, start)`, receiving `codes[start:]`. -/
def skipExtendedColor : List Nat → Nat
  | 5 :: _ => 2
  | 2 :: _ => 4
  | _ => 0

/-- The loop body of Go `applySGRParams`; `38`/`48` additionally drop the
extended-color arguments.  Returns the updated state and the `explicit`
flag.  The first argument is structural fuel: every step consumes at least
one code, so fuel equal to the list length (as supplied by `applyCodes`)
is never exhausted and the out-of-fuel branch is unreachable. -/
def applyCodesStep (applyCodes : List Nat → SgrState → Bool → SgrState × Bool)
    (c : Nat) (rest : List Nat) (st : SgrState) (ex : Bool) : SgrState × Bool :=
  if c = 0 then applyCodes rest SgrState.reset true
    else if c = 1 then applyCodes rest { st with attrs := st.attrs ||| 1 } true
    else if c = 2 then applyCodes rest { st with attrs := st.attrs ||| 2 } true
    else if c = 3 then applyCodes rest { st with attrs := st.attrs ||| 4 } true
    else if c = 4 then applyCodes rest { st with attrs := st.attrs ||| 8 } true
    else if c = 5 then applyCodes rest { st with attrs := st.attrs ||| 16 } true
    else if c = 6 then applyCodes rest { st with attrs := st.attrs ||| 32 } true
    else if c = 7 then applyCodes rest { st with attrs := st.attrs ||| 64 } true
    else if c = 8 then applyCodes rest { st with attrs := st.attrs ||| 128 } true
    else if c = 9 then applyCodes rest { st with attrs := st.attrs ||| 256 } true
    else if c = 22 then applyCodes rest { st with attrs := andNot16 st.attrs 3 } true
    else if c = 23 then applyCodes rest { st with attrs := andNot16 st.attrs 4 } true
    else if c = 24 then applyCodes rest { st with attrs := andNot16 st.attrs 8 } true
    else if c = 25 then applyCodes rest { st with attrs := andNot16 st.attrs 48 } true
    else if c = 27 then applyCodes rest { st with attrs := andNot16 st.attrs 64 } true
    else if c = 28 then applyCodes rest { st with attrs := andNot16 st.attrs 128 } true
    else if c = 29 then applyCodes rest { st with attrs := andNot16 st.attrs 256 } true
    else if c = 39 then applyCodes rest { st with fgActive := false } true
    else if c = 49 then applyCodes rest { st with bgActive := false } true
    else if (30 ≤ c ∧ c ≤ 37) ∨ (90 ≤ c ∧ c ≤ 97) then
      applyCodes rest { st with fgActive := true } true
    else if c = 38 then
      applyCodes (rest.drop (skipExtendedColor rest)) { st with fgActive := true } true
    else if (40 ≤ c ∧ c ≤ 47) ∨ (100 ≤ c ∧ c ≤ 107) then
      applyCodes rest { st with bgActive := true } true
    else if c = 48 then
      applyCodes (rest.drop (skipExtendedColor rest)) { st with bgActive := true } true
    else applyCodes rest st ex

def applyCodesF : Nat → List Nat → SgrState → Bool → SgrState × Bool
  | _, [], st, ex => (st, ex)
  | 0, _ :: _, st, ex => (st, ex)
  | fuel + 1, c :: rest, st, ex => applyCodesStep (applyCodesF fuel) c rest st ex

def applyCodes (codes : List Nat) (st : SgrState) (ex : Bool) : SgrState × Bool :=
  applyCodesF codes.length codes st ex

/-- Go `applySGRParams`: empty parameter bytes mean an implicit reset. -/
def applySGRParams (params : List Nat) (st : SgrState) : SgrState × Bool :=
  if params = [] then (SgrState.reset, true)
  else applyCodes (parseCSIParams params) st false

/-- Go `extractOSCData`: payload between `ESC ]` (with an optional leading
`;` stripped) and the terminator (`BEL` or `ESC \`). -/
def extractOSCData (data : List Nat) : List Nat :=
  if data.length < 2 then []
  else
    let start := if data.length > 2 ∧ data.get? 2 = some 59 then 3 else 2
    let e :=
      if data.length > 0 ∧ data.getLast? = some 7 then data.length - 1
      else if data.length ≥ 2 ∧ data.get? (data.length - 2) = some 27 ∧
          data.getLast? = some 92 then data.length - 2
      else data.length
    if start ≥ e then [] else (data.take e).drop start

/-- Go `parseOSC8`: `some isEnd` when the payload is an OSC 8 sequence
(`8;` prefix and at least two `;`), `none` otherwise. -/
def parseOSC8 (data : List Nat) : Option Bool :=
  if data.take 2 = [56, 59] then
    let rest := data.drop 2
    if rest.any (· = 59) then
      some (((rest.dropWhile (· ≠ 59)).drop 1).length = 0)
    else none
  else none

/-- Go `emitCSI` on the tokenizer's buffer: token plus updated SGR state. -/
def emitCSI (t : AnsiTokenizer) : Token × SgrState :=
  if t.buf.length ≥ 3 ∧ t.buf.getLast? = some 109 then
    let params := (t.buf.take (t.buf.length - 1)).drop 2
    let sgr' := (applySGRParams params t.sgr).1
    ({ kind := .sgr, data := t.buf, styled := sgr'.styled }, sgr')
  else ({ kind := .csi, data := t.buf }, t.sgr)

/-- Go `emitOSC` on the tokenizer's buffer: token plus updated `inOSC8`. -/
def emitOSC (t : AnsiTokenizer) : Token × Bool :=
  match parseOSC8 (extractOSCData t.buf) with
  | some isEnd => ({ kind := .osc8, data := t.buf, isEnd := isEnd }, !isEnd)
  | none => ({ kind := .osc, data := t.buf }, t.inOSC8)

/-- The per-byte `switch` of Go `AnsiTokenizer.Feed`. -/
def stepByte (t : AnsiTokenizer) (b : Nat) : AnsiTokenizer × List Token :=
  match t.state with
  | .ground =>
    if b = 27 then
      let toks := if t.buf ≠ [] then [{ kind := .text, data := t.buf : Token }] else []
      ({ t with buf := [b], state := .escS }, toks)
    else ({ t with buf := t.buf ++ [b] }, [])
  | .escS =>
    let buf' := t.buf ++ [b]
    if b = 91 then ({ t with buf := buf', state := .csiS }, [])
    else if b = 93 then ({ t with buf := buf', state := .oscS }, [])
    else if b = 80 ∨ b = 95 ∨ b = 94 then ({ t with buf := buf', state := .dcsS }, [])
    else ({ t with buf := [], state := .ground }, [{ kind := .esc, data := buf' }])
  | .csiS =>
    let buf' := t.buf ++ [b]
    if isCSIFinalByte b then
      let r := emitCSI { t with buf := buf' }
      ({ t with buf := [], state := .ground, sgr := r.2 }, [r.1])
    else if ¬ isCSIParamByte b ∧ ¬ isCSIIntermediateByte b then
      ({ t with buf := [], state := .ground }, [{ kind := .csi, data := buf' }])
    else ({ t with buf := buf' }, [])
  | .oscS =>
    let buf' := t.buf ++ [b]
    if b = 7 then
      let r := emitOSC { t with buf := buf' }
      ({ t with buf := [], state := .ground, inOSC8 := r.2 }, [r.1])
    else if b = 27 then
      ({ t with buf := buf', prevState := .oscS, state := .stCandidate }, [])
    else ({ t with buf := buf' }, [])
  | .stCandidate =>
    let buf' := t.buf ++ [b]
    if b = 92 then
      if t.prevState = .dcsS then
        ({ t with buf := [], state := .ground }, [{ kind := .dcs, data := buf' }])
      else
        let r := emitOSC { t with buf := buf' }
        ({ t with buf := [], state := .ground, inOSC8 := r.2 }, [r.1])
    else ({ t with buf := buf', state := t.prevState }, [])
  | .dcsS =>
    let buf' := t.buf ++ [b]
    if b = 27 then
      ({ t with buf := buf', prevState := .dcsS, state := .stCandidate }, [])
    else ({ t with buf := buf' }, [])

/-- The buffer-cap clamp that runs after every byte of Go `Feed`. -/
def capCheck (t : AnsiTokenizer) : AnsiTokenizer × List Token :=
  if t.buf.length > maxBufferSize then
    if t.state = .ground then
      ({ t with buf := [] }, [{ kind := .text, data := t.buf }])
    else
      ({ t with buf := [], state := .ground }, [{ kind := .other, data := t.buf }])
  else (t, [])

def feedByte (t : AnsiTokenizer) (b : Nat) : AnsiTokenizer × List Token :=
  let (t1, toks1) := stepByte t b
  let (t2, toks2) := capCheck t1
  (t2, toks1 ++ toks2)

def feedLoop (t : AnsiTokenizer) : List Nat → AnsiTokenizer × List Token
  | [] => (t, [])
  | b :: rest =>
    let (t1, toks1) := feedByte t b
    let (t2, toks2) := feedLoop t1 rest
    (t2, toks1 ++ toks2)

/-- Go `AnsiTokenizer.Feed`: the byte loop plus the trailing
emit-pending-text step. -/
def AnsiTokenizer.Feed (t : AnsiTokenizer) (p : List Nat) :
    AnsiTokenizer × List Token :=
  let (t1, toks) := feedLoop t p
  if t1.state = .ground ∧ t1.buf ≠ [] then
    ({ t1 with buf := [] }, toks ++ [{ kind := .text, data := t1.buf }])
  else (t1, toks)

/-- Go `inferIncompleteKind`. -/
def inferIncompleteKind (t : AnsiTokenizer) : TokenKind :=
  match t.buf with
  | [] => .text
  | b0 :: rest =>
    if b0 ≠ 27 then .text
    else
      match rest with
      | [] => .esc
      | b1 :: _ =>
        if b1 = 91 then .csi
        else if b1 = 93 then .osc
        else if b1 = 80 ∨ b1 = 95 ∨ b1 = 94 then .dcs
        else .esc

/-- Go `AnsiTokenizer.Flush`: emit the buffered bytes as a best-fit token;
an incomplete CSI buffer additionally has its parameter bytes applied to
the SGR state and carries the resulting `styled` flag. -/
def AnsiTokenizer.Flush (t : AnsiTokenizer) : AnsiTokenizer × List Token :=
  if t.buf = [] then (t, [])
  else
    let kind := inferIncompleteKind t
    if kind = .csi ∧ t.buf.length ≥ 2 then
      let sgr' := (applySGRParams (t.buf.drop 2) t.sgr).1
      ({ t with buf := [], state := .ground, sgr := sgr' },
        [{ kind := .csi, data := t.buf, styled := sgr'.styled }])
    else
      ({ t with buf := [], state := .ground }, [{ kind := kind, data := t.buf }])

def AnsiTokenizer.Styled (t : AnsiTokenizer) : Bool := t.sgr.styled

def tokensData (toks : List Token) : List Nat := (toks.map Token.data).flatten

def runFeedsAux : AnsiTokenizer → List (List Nat) → List Token
  | t, [] => (t.Flush).2
  | t, c :: cs => (t.Feed c).2 ++ runFeedsAux (t.Feed c).1 cs

/-- Feed a list of chunks into a fresh tokenizer, then flush; collect every
emitted token in order. -/
def runFeeds (chunks : List (List Nat)) : List Token :=
  runFeedsAux NewAnsiTokenizer chunks

/-! ## Spec-level model of SGR tracking (for the C8 refinement) -/

/-- Modelled from the spec (§4.1 SGR tracking): the set of attribute and
color-activity flags, one named boolean per flag. -/
structure SpecSgr where
  bold : Bool
  faint : Bool
  italic : Bool
  underline : Bool
  blinkSlow : Bool
  blinkRapid : Bool
  inverse : Bool
  conceal : Bool
  strikethrough : Bool
  fgActive : Bool
  bgActive : Bool
  deriving DecidableEq, Repr

def SpecSgr.resetAll : SpecSgr :=
  ⟨false, false, false, false, false, false, false, false, false, false, false⟩

def specAnyAttr (s : SpecSgr) : Bool :=
  s.bold || s.faint || s.italic || s.underline || s.blinkSlow || s.blinkRapid ||
    s.inverse || s.conceal || s.strikethrough

/-- Modelled from the spec: the decimal value of a digit field. -/
def specDecimal (f : List Nat) : Nat :=
  f.foldl (fun n b => n * 10 + (b - 48)) 0

/-- Modelled from the spec: "skip the next 2 params if the following one is
5 (256-color), next 4 if it is 2 (RGB), else 0". -/
def specSkipExt : List Nat → Nat
  | 5 :: _ => 2
  | 2 :: _ => 4
  | _ => 0

/-- Modelled from the spec: interpretation of one SGR code list
(§4.1 bullet list), fuel-structured like `applyCodesF`. -/
def specApplyStep (next : List Nat → SpecSgr → SpecSgr)
    (c : Nat) (rest : List Nat) (s : SpecSgr) : SpecSgr :=
  if c = 0 then next rest SpecSgr.resetAll
    else if c = 1 then next rest { s with bold := true }
    else if c = 2 then next rest { s with faint := true }
    else if c = 3 then next rest { s with italic := true }
    else if c = 4 then next rest { s with underline := true }
    else if c = 5 then next rest { s with blinkSlow := true }
    else if c = 6 then next rest { s with blinkRapid := true }
    else if c = 7 then next rest { s with inverse := true }
    else if c = 8 then next rest { s with conceal := true }
    else if c = 9 then next rest { s with strikethrough := true }
    else if c = 22 then next rest { s with bold := false, faint := false }
    else if c = 23 then next rest { s with italic := false }
    else if c = 24 then next rest { s with underline := false }
    else if c = 25 then next rest { s with blinkSlow := false, blinkRapid := false }
    else if c = 27 then next rest { s with inverse := false }
    else if c = 28 then next rest { s with conceal := false }
    else if c = 29 then next rest { s with strikethrough := false }
    else if c = 39 then next rest { s with fgActive := false }
    else if c = 49 then next rest { s with bgActive := false }
    else if (30 ≤ c ∧ c ≤ 37) ∨ (90 ≤ c ∧ c ≤ 97) then
      next rest { s with fgActive := true }
    else if c = 38 then next (rest.drop (specSkipExt rest)) { s with fgActive := true }
    else if (40 ≤ c ∧ c ≤ 47) ∨ (100 ≤ c ∧ c ≤ 107) then
      next rest { s with bgActive := true }
    else if c = 48 then next (rest.drop (specSkipExt rest)) { s with bgActive := true }
    else next rest s

def specApplyCodesF : Nat → List Nat → SpecSgr → SpecSgr
  | _, [], s => s
  | 0, _ :: _, s => s
  | fuel + 1, c :: rest, s => specApplyStep (specApplyCodesF fuel) c rest s

def specApplyCodes (codes : List Nat) (s : SpecSgr) : SpecSgr :=
  specApplyCodesF codes.length codes s

/-- Modelled from the spec: the parameter list is semicolon-separated
decimal numbers, an empty field meaning zero. -/
def specFields (params : List Nat) : List Nat :=
  (splitSemi params).map (fun f => if f = [] then 0 else specDecimal f)

/-- Modelled from the spec: missing parameters mean a single implicit zero
(reset); otherwise interpret each parsed code in order. -/
def sgrSpecApply (params : List Nat) (s : SpecSgr) : SpecSgr :=
  if params = [] then specApplyCodes [0] s
  else specApplyCodes (specFields params) s

/-- Abstraction from the Go bitmap state to the spec-level flag record. -/
def absSgr (st : SgrState) : SpecSgr :=
  ⟨st.attrs.testBit 0, st.attrs.testBit 1, st.attrs.testBit 2, st.attrs.testBit 3,
    st.attrs.testBit 4, st.attrs.testBit 5, st.attrs.testBit 6, st.attrs.testBit 7,
    st.attrs.testBit 8, st.fgActive, st.bgActive⟩

/-! ## FileIndex (`fileindex.go`, current revision with git-ignore set) -/

structure FileInfo where
  path : List Char
  mtime : Nat
  deriving DecidableEq, Repr

structure FileIndex where
  ready : Bool
  files : List (List Char × List FileInfo)
  deriving DecidableEq, Repr

/-- Go map lookup `idx.files[basename]` (missing key yields the empty
list, as for a Go nil slice). -/
def lookupFiles (files : List (List Char × List FileInfo)) (k : List Char) :
    List FileInfo :=
  match files.find? (fun e => e.1 = k) with
  | some e => e.2
  | none => []

/-- Go `filepath.Base` on slash-separated paths: empty input yields `.`,
trailing slashes are stripped, an all-slash path yields `/`, otherwise the
last component. -/
def filepathBase (p : List Char) : List Char :=
  if p = [] then ['.']
  else
    let q := (p.reverse.dropWhile (· = '/')).reverse
    if q = [] then ['/']
    else (q.reverse.takeWhile (· ≠ '/')).reverse

/-- The max-mtime fold of Go `FileIndex.Resolve`, starting from the zero
`FileInfo` (empty path, zero time) exactly as the Go `var newest FileInfo`
does. -/
def pickNewest (cands : List FileInfo) : FileInfo :=
  cands.foldl (fun newest c => if newest.mtime < c.mtime then c else newest) ⟨[], 0⟩

/-- Go `FileIndex.Resolve`. -/
def FileIndex.Resolve (idx : FileIndex) (path : List Char) : List Char :=
  if !idx.ready then []
  else
    let basename := filepathBase path
    let candidates := lookupFiles idx.files basename
    if candidates = [] then []
    else
      let candidates :=
        if path.any (· = '/') then
          let filtered := candidates.filter (fun c => ('/' :: path).isSuffixOf c.path)
          if filtered ≠ [] then filtered else candidates
        else candidates
      match candidates with
      | [c] => c.path
      | _ => (pickNewest candidates).path

/-! ## Linker (`linker.go`): string-level machinery

Strings are `List Char`; the filesystem, symlink resolution, home
directory and `filepath.Join` are supplied by an explicit environment and
quantified over in the theorems. -/

structure FSEnv where
  userHomeDir : Option (List Char)
  join : List Char → List Char → List Char
  evalSymlinks : List Char → Option (List Char)
  stat : List Char → Bool

structure LinkerConf where
  cwd : List Char
  hostname : List Char
  scheme : List Char
  terminator : List Char
  resolveBasename : Bool
  symbolLinks : Bool
  index : FileIndex

def osc8StartSeq : List Char := ['\x1b', ']', '8', ';', ';']

/-- Go `Linker.st`. -/
def stT (L : LinkerConf) : List Char :=
  if L.terminator = "bel".data then ['\x07'] else ['\x1b', '\\']

/-- Go `Linker.osc8Link`. -/
def osc8Link (L : LinkerConf) (url display : List Char) : List Char :=
  osc8StartSeq ++ url ++ stT L ++ display ++ osc8StartSeq ++ stT L

/-- The scan of Go `normalizeLocSuffix` for the first `-` at index ≥ 1:
`some pre` returns the characters before that dash. -/
def dropFromDash : List Char → Option (List Char)
  | [] => none
  | c :: rest => if c = '-' then some [] else (dropFromDash rest).map (c :: ·)

/-- Go `normalizeLocSuffix`: rewrite `:L-L2` to `:L:1`, keep everything
else. -/
def normalizeLocSuffix (s : List Char) : List Char :=
  match s with
  | [] => []
  | c :: rest =>
    match dropFromDash rest with
    | some pre => (c :: pre) ++ [':', '1']
    | none => s

/-- Go `Linker.formatFileURL`. -/
def formatFileURL (L : LinkerConf) (absPath locSuffix : List Char) : List Char :=
  if L.scheme = "file".data then "file://".data ++ L.hostname ++ absPath
  else L.scheme ++ "://file".data ++ absPath ++ normalizeLocSuffix locSuffix

/-- Go `Linker.wrapFile`. -/
def wrapFile (L : LinkerConf) (pre absPath locSuffix displayText : List Char) :
    List Char :=
  pre ++ osc8Link L (formatFileURL L absPath locSuffix) displayText

/-- Go `filepath.IsAbs` on unix. -/
def isAbsPath (p : List Char) : Bool := p.take 1 = ['/']

/-- Go `filepath.EvalSymlinks` call with its fall-back-to-input on error. -/
def evalOr (env : FSEnv) (p : List Char) : List Char :=
  (env.evalSymlinks p).getD p

/-- Go `Linker.resolvePath`: home expansion for `~/`, absolute as-is,
otherwise joined with the working directory; then canonicalized where
possible. -/
def resolvePath (env : FSEnv) (cwd path : List Char) : List Char :=
  if "~/".data.isPrefixOf path then
    match env.userHomeDir with
    | none => []
    | some home => evalOr env (env.join home (path.drop 2))
  else if isAbsPath path then evalOr env path
  else evalOr env (env.join cwd path)

/-- Go `Linker.pathExists` with its memoizing `fileCache`, modelled as an
association list threaded through the calls. -/
def pathExists (env : FSEnv) (cache : List (List Char × Bool)) (p : List Char) :
    Bool × List (List Char × Bool) :=
  match cache.find? (fun e => e.1 = p) with
  | some e => (e.2, cache)
  | none => (env.stat p, (p, env.stat p) :: cache)

/-- Go `stripGitDiffPrefix`. -/
def stripGitDiffPrefix (path : List Char) : Option (List Char) :=
  match path with
  | a :: b :: rest =>
    if (a = 'a' ∨ a = 'b') ∧ b = '/' ∧ rest ≠ [] then some rest else none
  | _ => none

/-- Go `Linker.wrapFilePath`: literal resolution, the git-diff `a/`/`b/`
retry, then the FileIndex fallback; returns the replacement (if any) and
the updated existence cache. -/
def wrapFilePath (env : FSEnv) (L : LinkerConf) (cache : List (List Char × Bool))
    (pre pathPart locSuffix displayText : List Char) :
    Option (List Char) × List (List Char × Bool) :=
  let absPath := resolvePath env L.cwd pathPart
  if absPath = [] then (none, cache)
  else
    let r1 := pathExists env cache absPath
    if r1.1 then (some (wrapFile L pre absPath locSuffix displayText), r1.2)
    else
      let tryStrip : Option (List Char) × List (List Char × Bool) :=
        match stripGitDiffPrefix pathPart with
        | some stripped =>
          let strippedAbs := resolvePath env L.cwd stripped
          if strippedAbs ≠ [] then
            let r2 := pathExists env r1.2 strippedAbs
            if r2.1 then
              (some (wrapFile L pre strippedAbs locSuffix displayText), r2.2)
            else (none, r2.2)
          else (none, r1.2)
        | none => (none, r1.2)
      if tryStrip.1.isSome then tryStrip
      else if !L.resolveBasename then (none, tryStrip.2)
      else
        let abs2 := FileIndex.Resolve L.index pathPart
        if abs2 = [] then (none, tryStrip.2)
        else (some (wrapFile L pre abs2 locSuffix displayText), tryStrip.2)

/-! ## Linker: symbol rewriting, match processing, argument parsing -/

/-- Go `isWordChar`. -/
def isWordChar (c : Char) : Bool :=
  c = '_' || ('0' ≤ c && c ≤ '9') || ('A' ≤ c && c ≤ 'Z') || ('a' ≤ c && c ≤ 'z')

/-- Go `Linker.wrapSymbol`. -/
def wrapSymbol (L : LinkerConf) (pre display symbol : List Char)
    (isFunction : Bool) : List Char :=
  pre ++ osc8Link L
    (L.scheme ++ "://maaashjp.symbol-opener?symbol=".data ++ symbol ++
      "&cwd=".data ++ L.cwd ++ (if isFunction then "&kind=Function".data else []))
    display

/-- The scan loop of Go `replaceSymbolsStyledSegment`, parametrized by the
link-wrapping function (`wrap isFunction display symbol`) and fuel; fuel
equal to the remaining input length (as supplied by
`replaceSymbolsStyledSegment`) is never exhausted since every step
consumes at least one byte. -/
def replaceSymbolsF (wrap : Bool → List Char → List Char → List Char) :
    Nat → List Char → List Char → List Char
  | _, _, [] => []
  | 0, _, _ :: _ => []
  | fuel + 1, qn, c :: rest =>
    if ¬ isWordChar c then
      if c = '.' ∧ qn ≠ [] ∧ ((rest.head?.map isWordChar).getD false) = true then
        '.' :: replaceSymbolsF wrap fuel (qn ++ ['.']) rest
      else c :: replaceSymbolsF wrap fuel [] rest
    else
      let word := (c :: rest).takeWhile isWordChar
      let rest2 := (c :: rest).dropWhile isWordChar
      let qn2 := qn ++ word
      if word.length ≥ 3 then
        wrap (decide (rest2.head? = some '(')) word qn2 ++
          replaceSymbolsF wrap fuel qn2 rest2
      else word ++ replaceSymbolsF wrap fuel qn2 rest2

/-- Go `Linker.replaceSymbolsStyledSegment`. -/
def replaceSymbolsStyledSegment (L : LinkerConf) (data : List Char) : List Char :=
  replaceSymbolsF (fun fn d s => wrapSymbol L [] d s fn) data.length [] data

/-- One `FindAllSubmatchIndex` record: full-match bounds and the four
capture groups, `none` standing for an absent or empty group exactly as
Go `submatch` treats index pairs. -/
structure MatchRec where
  fullStart : Nat
  fullEnd : Nat
  g1 : Option (Nat × Nat)
  g2 : Option (Nat × Nat)
  g3 : Option (Nat × Nat)
  g4 : Option (Nat × Nat)
  deriving DecidableEq, Repr

/-- Go slice `data[s:e]`. -/
def sliceL (data : List Char) (s e : Nat) : List Char := (data.take e).drop s

/-- Go `trimURLSuffix`. -/
def trimURLSuffix (url : List Char) : List Char × List Char :=
  if url = [] ∨ url.getLast? ≠ some ')' then (url, [])
  else if url.any (· = '(') then (url, [])
  else (url.dropLast, [')'])

/-- Go `Linker.wrapURL`. -/
def wrapURL (L : LinkerConf) (url : List Char) : List Char × List Char :=
  let r := trimURLSuffix url
  (osc8Link L r.1 r.1, r.2)

/-- Go `Linker.wrapBareDomain`. -/
def wrapBareDomain (L : LinkerConf) (pre domain : List Char) : List Char :=
  pre ++ osc8Link L ("https://".data ++ domain) domain

/-- The match loop of Go `Linker.processTextWithState` (lines after
`FindAllSubmatchIndex`), with the regex engine's output passed in as the
`matches` list and the symbol rewriter as `symFn`.  Threads the existence
cache through `wrapFilePath`. -/
def processMatches (env : FSEnv) (L : LinkerConf) (symFn : List Char → List Char)
    (data : List Char) (styled : Bool) :
    List MatchRec → Nat → List (List Char × Bool) →
      List Char × List (List Char × Bool)
  | [], last, cache =>
    (if last < data.length then
      (if L.symbolLinks && styled then symFn (data.drop last) else data.drop last)
    else [], cache)
  | m :: rest, last, cache =>
    let preSeg :=
      if last < m.fullStart then
        (if L.symbolLinks && styled then symFn (sliceL data last m.fullStart)
         else sliceL data last m.fullStart)
      else []
    match m.g1 with
    | some (s, e) =>
      let r := wrapURL L (sliceL data s e)
      let tail := processMatches env L symFn data styled rest m.fullEnd cache
      (preSeg ++ r.1 ++ r.2 ++ tail.1, tail.2)
    | none =>
      match m.g2 with
      | some (s, e) =>
        let out := wrapBareDomain L (sliceL data m.fullStart s) (sliceL data s e)
        let tail := processMatches env L symFn data styled rest m.fullEnd cache
        (preSeg ++ out ++ tail.1, tail.2)
      | none =>
        match m.g3 with
        | none =>
          let tail := processMatches env L symFn data styled rest m.fullEnd cache
          (preSeg ++ sliceL data m.fullStart m.fullEnd ++ tail.1, tail.2)
        | some (ps, pe) =>
          let pathPart := sliceL data ps pe
          let locSuffix :=
            match m.g4 with
            | some (ls, le) => sliceL data ls le
            | none => []
          let pre := sliceL data m.fullStart ps
          let displayText := pathPart ++ locSuffix
          let r := wrapFilePath env L cache pre pathPart locSuffix displayText
          match r.1 with
          | some replacement =>
            let tail := processMatches env L symFn data styled rest m.fullEnd r.2
            (preSeg ++ replacement ++ tail.1, tail.2)
          | none =>
            let seg := sliceL data m.fullStart m.fullEnd
            let segOut := if L.symbolLinks && styled then symFn seg else seg
            let tail := processMatches env L symFn data styled rest m.fullEnd r.2
            (preSeg ++ segOut ++ tail.1, tail.2)

/-- Go `Linker.processTextWithState`, with the regex matches abstracted. -/
def processTextWithState (env : FSEnv) (L : LinkerConf)
    (symFn : List Char → List Char) (ms : List MatchRec)
    (data : List Char) (styled inOSC8 : Bool)
    (cache : List (List Char × Bool)) : List Char × List (List Char × Bool) :=
  if inOSC8 then (data, cache)
  else if ms = [] then
    (if L.symbolLinks && styled then symFn data else data, cache)
  else processMatches env L symFn data styled ms 0 cache

/-! ## CLI argument parsing (`main.go parseArgs`) -/

/-- The environment-variable inputs of Go `parseArgs` (empty string means
unset). -/
structure ArgEnvR where
  envScheme : List Char
  envTerminator : List Char
  envDomains : List Char
  envNoResolveBasename : List Char
  envExcludeDirs : List Char
  envNoSymbolLinks : List Char
  deriving DecidableEq, Repr

structure OptsModel where
  scheme : List Char
  terminator : List Char
  domains : List (List Char)
  resolveBasename : Bool
  excludeDirs : List (List Char)
  symbolLinks : Bool
  debugWrites : Bool
  deriving DecidableEq, Repr

/-- Split a character list on a separator, keeping empty fields. -/
def splitOnChar (sep : Char) : List Char → List (List Char)
  | [] => [[]]
  | c :: rest =>
    if c = sep then [] :: splitOnChar sep rest
    else
      match splitOnChar sep rest with
      | f :: fs => (c :: f) :: fs
      | [] => [[c]]

/-- Go `strings.TrimSpace` (whitespace on both ends). -/
def trimSpaceL (s : List Char) : List Char :=
  ((s.dropWhile Char.isWhitespace).reverse.dropWhile Char.isWhitespace).reverse

/-- Go `splitComma`. -/
def splitComma (s : List Char) : List (List Char) :=
  if s = [] then []
  else ((splitOnChar ',' s).map trimSpaceL).filter (· ≠ [])

/-- Go `strings.CutPrefix`. -/
def cutPrefixL (pre s : List Char) : Option (List Char) :=
  if pre.isPrefixOf s then some (s.drop pre.length) else none

/-- The flag loop of Go `parseArgs`; `none` models the `os.Exit(1)` path
for an unknown option. -/
def parseArgsLoop : List (List Char) → OptsModel → Bool →
    Option (OptsModel × Bool × List (List Char))
  | [], opts, noSym => some (opts, noSym, [])
  | arg :: rest, opts, noSym =>
    match cutPrefixL "--scheme=".data arg with
    | some v => parseArgsLoop rest { opts with scheme := v } noSym
    | none =>
      match cutPrefixL "--terminator=".data arg with
      | some v => parseArgsLoop rest { opts with terminator := v } noSym
      | none =>
        match cutPrefixL "--domains=".data arg with
        | some v => parseArgsLoop rest { opts with domains := splitComma v } noSym
        | none =>
          if arg = "--no-resolve-basename".data then
            parseArgsLoop rest { opts with resolveBasename := false } noSym
          else
            match cutPrefixL "--exclude-dir=".data arg with
            | some v =>
              parseArgsLoop rest { opts with excludeDirs := splitComma v } noSym
            | none =>
              if arg = "--no-symbol-links".data then parseArgsLoop rest opts true
              else if arg = "--debug-writes".data then
                parseArgsLoop rest { opts with debugWrites := true } noSym
              else if arg = "--".data then some (opts, noSym, rest)
              else if arg.take 1 = ['-'] then none
              else some (opts, noSym, arg :: rest)

/-- The env-var defaults with which Go `parseArgs` seeds its options. -/
def initialOpts (env : ArgEnvR) : OptsModel :=
  { scheme := env.envScheme
    terminator := env.envTerminator
    domains :=
      if env.envDomains ≠ [] then splitComma env.envDomains
      else ["github.com".data]
    resolveBasename := env.envNoResolveBasename ≠ "1".data
    excludeDirs :=
      if env.envExcludeDirs ≠ [] then splitComma env.envExcludeDirs
      else ["vendor".data, "node_modules".data, ".git".data,
        "__pycache__".data, ".cache".data]
    symbolLinks := false
    debugWrites := false }

/-- Go `parseArgs`: env-var defaults, the flag loop, then the
`SymbolLinks` computation from the effective scheme. -/
def parseArgs (env : ArgEnvR) (args : List (List Char)) :
    Option (OptsModel × List (List Char)) :=
  match parseArgsLoop args (initialOpts env)
      (decide (env.envNoSymbolLinks = "1".data)) with
  | none => none
  | some (opts, noSym, cmdArgs) =>
    some ({ opts with
            symbolLinks :=
              decide ((if opts.scheme = [] then "file".data
                else opts.scheme) ≠ "file".data) && !noSym },
      cmdArgs)

/-! ## FileIndex initial scan (`fileindex.go` `Start`/`buildFromFilesystem`,
`loadGitIgnoredDirs`)

The `git` subprocess is an abstract environment (`run` maps an argument
vector to the command's stdout, `none` on error); the filesystem is a
symlink-free tree, on which the symlink-following `symwalk` walker
coincides with a plain depth-first walk (its visited-set bookkeeping is
inert without symlinks). -/

structure GitEnvR where
  run : List (List Char) → Option (List Char)

/-- The exact argument vector `loadGitIgnoredDirs` invokes. -/
def gitLsFilesArgs : List (List Char) :=
  ["git".data, "ls-files".data, "-oi".data, "--exclude-standard".data,
    "--directory".data]

/-- Go `strings.TrimRight` with a cutset. -/
def trimRightCutset (s cut : List Char) : List Char :=
  (s.reverse.dropWhile (fun c => cut.contains c)).reverse

/-- `filepath.Join` for a clean base and a clean relative component. -/
def pathJoin (a b : List Char) : List Char := a ++ '/' :: b

/-- Go `loadGitIgnoredDirs`: run `git ls-files -oi --exclude-standard
--directory`, treat each non-empty line (slashes, CR/LF and spaces
trimmed from the right) as a directory joined onto the working
directory; empty on error. -/
def loadGitIgnoredDirs (env : GitEnvR) (cwd : List Char) : List (List Char) :=
  match env.run gitLsFilesArgs with
  | none => []
  | some out =>
    (splitOnChar '\n' out).filterMap (fun line =>
      let l := trimRightCutset line ['/', '\r', '\n', ' ']
      if l = [] then none else some (pathJoin cwd l))

/-- The two exclusion sources of the scan: the configured exclude list
(by directory basename) and the git-ignored set (by absolute path). -/
structure FIConf where
  excludeSet : List (List Char)
  ignoredDirs : List (List Char)

/-- Go `FileIndex.isIgnoredDir`. -/
def isIgnoredDir (conf : FIConf) (path : List Char) : Bool :=
  decide (filepathBase path ∈ conf.excludeSet) || decide (path ∈ conf.ignoredDirs)

mutual
inductive FsTree where
  | file (name : List Char) (mtime : Nat)
  | dir (name : List Char) (children : FsForest)
inductive FsForest where
  | leaf
  | cons (t : FsTree) (ts : FsForest)
end

mutual
/-- The walk callback of Go `buildFromFilesystem` over a symlink-free
tree: skipped directories (`isIgnoredDir`) prune their subtree
(`SkipDir`); every visited regular file is recorded as (path, mtime). -/
def walkFiles (conf : FIConf) (parent : List Char) :
    FsTree → List (List Char × Nat)
  | .file name mtime => [(pathJoin parent name, mtime)]
  | .dir name children =>
    if isIgnoredDir conf (pathJoin parent name) then []
    else walkForest conf (pathJoin parent name) children
def walkForest (conf : FIConf) (parent : List Char) :
    FsForest → List (List Char × Nat)
  | .leaf => []
  | .cons t ts => walkFiles conf parent t ++ walkForest conf parent ts
end

mutual
/-- Specification-side enumeration of every regular file of the tree:
(path, mtime, list of the directory paths strictly above it within the
walked region). -/
def allFiles (parent : List Char) :
    FsTree → List (List Char × Nat × List (List Char))
  | .file name mtime => [(pathJoin parent name, mtime, [])]
  | .dir name children =>
    (allForest (pathJoin parent name) children).map
      (fun e => (e.1, e.2.1, pathJoin parent name :: e.2.2))
def allForest (parent : List Char) :
    FsForest → List (List Char × Nat × List (List Char))
  | .leaf => []
  | .cons t ts => allFiles parent t ++ allForest parent ts
end

/-- Go `idx.files[basename] = append(idx.files[basename], FileInfo{...})`
on the association-list map model. -/
def addToKey : List (List Char × List FileInfo) → List Char → FileInfo →
    List (List Char × List FileInfo)
  | [], k, v => [(k, [v])]
  | (k0, vs) :: rest, k, v =>
    if k0 = k then (k0, vs ++ [v]) :: rest else (k0, vs) :: addToKey rest k v

/-- The basename map built by the initial scan from the recorded
(path, mtime) events in walk order. -/
def buildIndex (entries : List (List Char × Nat)) :
    List (List Char × List FileInfo) :=
  entries.foldl (fun fs e => addToKey fs (filepathBase e.1) ⟨e.1, e.2⟩) []

/-! ## Byte-level rewriter loop (`linker.go` `Write`/`Flush`) and
well-formed OSC 8 input (for C2)

`procOutside` stands for the regex-based rewriting that
`processTextWithState` performs on text outside a hyperlink (lines
175-250 of `linker.go`); C2 never exercises it, so the theorem
quantifies over it. -/

structure LinkerBState where
  styled : Bool
  inOSC8 : Bool
  deriving DecidableEq, Repr

/-- Byte-level view of Go `Linker.processTextWithState`: a text token seen
while `inOSC8` is true is returned unchanged; otherwise the abstract
outside-link rewriting applies. -/
def processTextBytes (procOutside : List Nat → Bool → List Nat)
    (dat : List Nat) (styled inOSC8 : Bool) : List Nat :=
  if inOSC8 then dat else procOutside dat styled

/-- The per-token `switch` body of Go `Linker.Write`. -/
def writeTok (procOutside : List Nat → Bool → List Nat)
    (st : LinkerBState) (tok : Token) : LinkerBState × List Nat :=
  match tok.kind with
  | .text => (st, processTextBytes procOutside tok.data st.styled st.inOSC8)
  | .sgr => ({ st with styled := tok.styled }, tok.data)
  | .osc8 => ({ st with inOSC8 := !tok.isEnd }, tok.data)
  | _ => (st, tok.data)

/-- The token loop of Go `Linker.Write`. -/
def writeTokens (procOutside : List Nat → Bool → List Nat) :
    LinkerBState → List Token → LinkerBState × List Nat
  | st, [] => (st, [])
  | st, tok :: rest =>
    let r := writeTok procOutside st tok
    let r2 := writeTokens procOutside r.1 rest
    (r2.1, r.2 ++ r2.2)

/-- One Go `Linker.Write` call on the whole input from fresh state,
followed by `Linker.Flush` (which writes the flush tokens' data
through). -/
def linkerRun (procOutside : List Nat → Bool → List Nat)
    (p : List Nat) : List Nat :=
  let f := NewAnsiTokenizer.Feed p
  let w := writeTokens procOutside ⟨false, false⟩ f.2
  w.2 ++ tokensData ((f.1).Flush).2

/-- A well-formed OSC 8 hyperlink of the input language of C2: an opening
sequence with parameters and a non-empty URI, display text, and the
closing sequence, each terminated by BEL or by ST. -/
structure OSC8Link where
  params : List Nat
  uri : List Nat
  inner : List Nat
  useBel : Bool
  deriving DecidableEq, Repr

def oscTerm (useBel : Bool) : List Nat := if useBel then [7] else [27, 92]

def renderOpen (l : OSC8Link) : List Nat :=
  [27, 93, 56, 59] ++ l.params ++ [59] ++ l.uri ++ oscTerm l.useBel

def renderClose (l : OSC8Link) : List Nat :=
  [27, 93, 56, 59, 59] ++ oscTerm l.useBel

def renderLink (l : OSC8Link) : List Nat :=
  renderOpen l ++ l.inner ++ renderClose l

def renderLinks (ls : List OSC8Link) : List Nat := (ls.map renderLink).flatten

/-- Well-formedness: non-empty URI (a link-open), no stray terminator or
escape bytes inside the payload fields, no escape byte in the display
text, and sequence/text sizes within the tokenizer's 4096-byte
accumulator cap. -/
def WFLink (l : OSC8Link) : Prop :=
  l.uri ≠ [] ∧
  (∀ b ∈ l.params, b ≠ 59 ∧ b ≠ 27 ∧ b ≠ 7) ∧
  (∀ b ∈ l.uri, b ≠ 27 ∧ b ≠ 7) ∧
  (∀ b ∈ l.inner, b ≠ 27) ∧
  (renderOpen l).length ≤ 4096 ∧ l.inner.length ≤ 4096

/-- The token sequence the tokenizer produces for one rendered link. -/
def linkTokens (l : OSC8Link) : List Token :=
  { kind := .osc8, data := renderOpen l, isEnd := false } ::
    ((if l.inner = [] then [] else [{ kind := .text, data := l.inner : Token }]) ++
      [{ kind := .osc8, data := renderClose l, isEnd := true }])

def linksTokens (ls : List OSC8Link) : List Token := (ls.map linkTokens).flatten

/-! ## Theorems: tokenizer byte-faithfulness (C1) -/

theorem tokensData_nil : tokensData [] = [] := rfl

theorem tokensData_append (a b : List Token) :
    tokensData (a ++ b) = tokensData a ++ tokensData b := by
  simp [tokensData]

theorem tokensData_cons (t : Token) (rest : List Token) :
    tokensData (t :: rest) = t.data ++ tokensData rest := by
  simp [tokensData]

theorem emitCSI_data (t : AnsiTokenizer) : (emitCSI t).1.data = t.buf := by
  simp only [emitCSI]
  split <;> rfl

theorem emitOSC_data (t : AnsiTokenizer) : (emitOSC t).1.data = t.buf := by
  simp only [emitOSC]
  rcases parseOSC8 (extractOSCData t.buf) with _ | e <;> rfl

theorem stepByte_data (t : AnsiTokenizer) (b : Nat) :
    tokensData (stepByte t b).2 ++ (stepByte t b).1.buf = t.buf ++ [b] := by
  rcases t with ⟨buf, st, prev, sgr, in8⟩
  cases st <;>
    simp only [stepByte] <;>
    split_ifs <;>
    simp_all [tokensData, emitCSI_data, emitOSC_data]

theorem capCheck_data (t : AnsiTokenizer) :
    tokensData (capCheck t).2 ++ (capCheck t).1.buf = t.buf := by
  simp only [capCheck]
  split_ifs <;> simp [tokensData]

theorem feedByte_data (t : AnsiTokenizer) (b : Nat) :
    tokensData (feedByte t b).2 ++ (feedByte t b).1.buf = t.buf ++ [b] := by
  simp only [feedByte, tokensData_append, List.append_assoc]
  rw [capCheck_data, stepByte_data]

theorem feedLoop_data (p : List Nat) :
    ∀ t : AnsiTokenizer,
      tokensData (feedLoop t p).2 ++ (feedLoop t p).1.buf = t.buf ++ p := by
  induction p with
  | nil => intro t; simp [feedLoop, tokensData]
  | cons b rest ih =>
    intro t
    simp only [feedLoop, tokensData_append, List.append_assoc]
    rw [ih, ← List.append_assoc, feedByte_data, List.append_assoc]
    rfl

theorem Feed_data (t : AnsiTokenizer) (p : List Nat) :
    tokensData (t.Feed p).2 ++ (t.Feed p).1.buf = t.buf ++ p := by
  simp only [AnsiTokenizer.Feed]
  split_ifs with h
  · simp only [tokensData_append, tokensData_cons, tokensData_nil, List.append_assoc,
      List.append_nil]
    exact feedLoop_data p t
  · exact feedLoop_data p t

theorem Flush_data (t : AnsiTokenizer) : tokensData (t.Flush).2 = t.buf := by
  simp only [AnsiTokenizer.Flush]
  split_ifs <;> simp_all [tokensData]

theorem runFeedsAux_data (cs : List (List Nat)) :
    ∀ t : AnsiTokenizer, tokensData (runFeedsAux t cs) = t.buf ++ cs.flatten := by
  induction cs with
  | nil => intro t; simpa [runFeedsAux] using Flush_data t
  | cons c rest ih =>
    intro t
    simp only [runFeedsAux, tokensData_append, ih, List.flatten_cons]
    rw [← List.append_assoc, Feed_data]
    simp

/-- C1: for every byte string and every 2-split `B = X ++ Y`, feeding `X`
then `Y` into a fresh tokenizer and flushing yields tokens whose `data`
fields concatenate to exactly `X ++ Y`, and feeding `B` in a single call
does too; no byte is lost or duplicated across chunk boundaries
(the 4096-byte accumulator cap included, since `X` and `Y` are arbitrary). -/
theorem c1_tokenizer_byte_faithful (X Y : List Nat) :
    tokensData (runFeeds [X, Y]) = X ++ Y ∧
      tokensData (runFeeds [X ++ Y]) = X ++ Y := by
  constructor <;> simp [runFeeds, runFeedsAux_data, NewAnsiTokenizer]

/-! ## Theorems: flag discipline of the tokenizer (C5) -/

theorem emitCSI_sgr_of_not (t : AnsiTokenizer)
    (h : (emitCSI t).1.kind ≠ TokenKind.sgr) : (emitCSI t).2 = t.sgr := by
  by_cases hc : t.buf.length ≥ 3 ∧ t.buf.getLast? = some 109
  · simp [emitCSI, hc] at h
  · simp [emitCSI, hc]

theorem emitOSC_osc8_of_not (t : AnsiTokenizer)
    (h : (emitOSC t).1.kind ≠ TokenKind.osc8) : (emitOSC t).2 = t.inOSC8 := by
  rcases hp : parseOSC8 (extractOSCData t.buf) with _ | e
  · simp [emitOSC, hp]
  · simp [emitOSC, hp] at h

theorem stepByte_sgr (t : AnsiTokenizer) (b : Nat)
    (h : ∀ tok ∈ (stepByte t b).2, tok.kind ≠ TokenKind.sgr) :
    (stepByte t b).1.sgr = t.sgr := by
  rcases t with ⟨buf, st, prev, sgr, in8⟩
  cases st <;> simp only [stepByte] at h ⊢ <;> split_ifs at h ⊢ <;>
    first
      | rfl
      | exact emitCSI_sgr_of_not _ (h _ (List.mem_singleton_self _))

theorem stepByte_inOSC8 (t : AnsiTokenizer) (b : Nat)
    (h : ∀ tok ∈ (stepByte t b).2, tok.kind ≠ TokenKind.osc8) :
    (stepByte t b).1.inOSC8 = t.inOSC8 := by
  rcases t with ⟨buf, st, prev, sgr, in8⟩
  cases st <;> simp only [stepByte] at h ⊢ <;> split_ifs at h ⊢ <;>
    first
      | rfl
      | exact emitOSC_osc8_of_not _ (h _ (List.mem_singleton_self _))

theorem capCheck_sgr (t : AnsiTokenizer) : (capCheck t).1.sgr = t.sgr := by
  simp only [capCheck]
  split_ifs <;> rfl

theorem capCheck_inOSC8 (t : AnsiTokenizer) : (capCheck t).1.inOSC8 = t.inOSC8 := by
  simp only [capCheck]
  split_ifs <;> rfl

theorem feedByte_sgr (t : AnsiTokenizer) (b : Nat)
    (h : ∀ tok ∈ (feedByte t b).2, tok.kind ≠ TokenKind.sgr) :
    (feedByte t b).1.sgr = t.sgr := by
  simp only [feedByte] at h ⊢
  rw [capCheck_sgr]
  exact stepByte_sgr t b (fun tok htok => h tok (List.mem_append_left _ htok))

theorem feedByte_inOSC8 (t : AnsiTokenizer) (b : Nat)
    (h : ∀ tok ∈ (feedByte t b).2, tok.kind ≠ TokenKind.osc8) :
    (feedByte t b).1.inOSC8 = t.inOSC8 := by
  simp only [feedByte] at h ⊢
  rw [capCheck_inOSC8]
  exact stepByte_inOSC8 t b (fun tok htok => h tok (List.mem_append_left _ htok))

theorem feedLoop_sgr (p : List Nat) :
    ∀ t : AnsiTokenizer,
      (∀ tok ∈ (feedLoop t p).2, tok.kind ≠ TokenKind.sgr) →
      (feedLoop t p).1.sgr = t.sgr := by
  induction p with
  | nil => intro t _; rfl
  | cons b rest ih =>
    intro t h
    simp only [feedLoop] at h ⊢
    rw [ih (feedByte t b).1
        (fun tok htok => h tok (List.mem_append_right _ htok))]
    exact feedByte_sgr t b (fun tok htok => h tok (List.mem_append_left _ htok))

theorem feedLoop_inOSC8 (p : List Nat) :
    ∀ t : AnsiTokenizer,
      (∀ tok ∈ (feedLoop t p).2, tok.kind ≠ TokenKind.osc8) →
      (feedLoop t p).1.inOSC8 = t.inOSC8 := by
  induction p with
  | nil => intro t _; rfl
  | cons b rest ih =>
    intro t h
    simp only [feedLoop] at h ⊢
    rw [ih (feedByte t b).1
        (fun tok htok => h tok (List.mem_append_right _ htok))]
    exact feedByte_inOSC8 t b (fun tok htok => h tok (List.mem_append_left _ htok))

theorem Feed_sgr (t : AnsiTokenizer) (p : List Nat)
    (h : ∀ tok ∈ (t.Feed p).2, tok.kind ≠ TokenKind.sgr) :
    (t.Feed p).1.sgr = t.sgr := by
  simp only [AnsiTokenizer.Feed] at h ⊢
  split_ifs at h ⊢ <;>
    exact feedLoop_sgr p t (fun tok htok => h tok (by simp [htok]))

theorem Feed_inOSC8 (t : AnsiTokenizer) (p : List Nat)
    (h : ∀ tok ∈ (t.Feed p).2, tok.kind ≠ TokenKind.osc8) :
    (t.Feed p).1.inOSC8 = t.inOSC8 := by
  simp only [AnsiTokenizer.Feed] at h ⊢
  split_ifs at h ⊢ <;>
    exact feedLoop_inOSC8 p t (fun tok htok => h tok (by simp [htok]))

/-- C5 counterexample: feeding the incomplete CSI sequence `ESC [ 3 1` and
flushing emits no SGR token anywhere (the flush token has kind CSI), yet
the tokenizer's `styled` flag flips from `false` to `true` at the flush. -/
theorem c5_counterexample :
    (∀ tok ∈ (NewAnsiTokenizer.Feed [27, 91, 51, 49]).2,
        tok.kind ≠ TokenKind.sgr) ∧
    (∀ tok ∈ ((NewAnsiTokenizer.Feed [27, 91, 51, 49]).1.Flush).2,
        tok.kind ≠ TokenKind.sgr) ∧
    (NewAnsiTokenizer.Feed [27, 91, 51, 49]).1.Styled = false ∧
    (((NewAnsiTokenizer.Feed [27, 91, 51, 49]).1.Flush).1).Styled = true := by
  decide

/-- C5 (amended): during `Feed`, the SGR state changes only when an SGR
token is emitted and `inOSC8` only when an OSC 8 token is emitted (set to
the negation of the token's `isEnd`, i.e. set on non-empty URI, cleared on
empty URI); `Flush` never changes `inOSC8`, and changes the SGR state only
when the buffered incomplete sequence is a CSI sequence, whose parameter
bytes it applies to the style state (this is the one departure from the
original claim, forced by the counterexample). -/
theorem c5_amended (p : List Nat) (t : AnsiTokenizer) :
    ((∀ tok ∈ (t.Feed p).2, tok.kind ≠ TokenKind.sgr) →
        (t.Feed p).1.sgr = t.sgr) ∧
    ((∀ tok ∈ (t.Feed p).2, tok.kind ≠ TokenKind.osc8) →
        (t.Feed p).1.inOSC8 = t.inOSC8) ∧
    ((t.Flush).1.inOSC8 = t.inOSC8) ∧
    ((t.buf = [] ∨ inferIncompleteKind t ≠ TokenKind.csi) →
        (t.Flush).1.sgr = t.sgr) ∧
    ((emitOSC t).1.kind = TokenKind.osc8 →
        (emitOSC t).2 = !(emitOSC t).1.isEnd) ∧
    ((emitOSC t).1.kind ≠ TokenKind.osc8 → (emitOSC t).2 = t.inOSC8) := by
  refine ⟨Feed_sgr t p, Feed_inOSC8 t p, ?_, ?_, ?_, emitOSC_osc8_of_not t⟩
  · simp only [AnsiTokenizer.Flush]
    split_ifs <;> rfl
  · intro h
    simp only [AnsiTokenizer.Flush]
    rcases h with h | h
    · simp [h]
    · split_ifs with h1 h2 <;> first | rfl | exact absurd h2.1 h
  · intro h
    rcases hp : parseOSC8 (extractOSCData t.buf) with _ | e
    · simp [emitOSC, hp] at h
    · simp [emitOSC, hp]

/-- Witness for `c5_amended` at `p = [104]` (plain text) on a fresh
tokenizer. -/
theorem c5_amended_witness :
    (NewAnsiTokenizer.Feed [104]).1.sgr = NewAnsiTokenizer.sgr ∧
      (NewAnsiTokenizer.Feed [104]).1.inOSC8 = NewAnsiTokenizer.inOSC8 := by
  exact ⟨(c5_amended [104] NewAnsiTokenizer).1 (by decide),
    (c5_amended [104] NewAnsiTokenizer).2.1 (by decide)⟩

/-! ## Theorems: SGR interpretation refinement (C8) -/

theorem absSgr_or_1 (st : SgrState) :
    absSgr { st with attrs := st.attrs ||| 1 } =
      { absSgr st with bold := true } := by
  simp [absSgr, Nat.testBit_or,
    (by decide : Nat.testBit 1 0 = true),
    (by decide : Nat.testBit 1 1 = false),
    (by decide : Nat.testBit 1 2 = false),
    (by decide : Nat.testBit 1 3 = false),
    (by decide : Nat.testBit 1 4 = false),
    (by decide : Nat.testBit 1 5 = false),
    (by decide : Nat.testBit 1 6 = false),
    (by decide : Nat.testBit 1 7 = false),
    (by decide : Nat.testBit 1 8 = false)]

theorem absSgr_or_2 (st : SgrState) :
    absSgr { st with attrs := st.attrs ||| 2 } =
      { absSgr st with faint := true } := by
  simp [absSgr, Nat.testBit_or,
    (by decide : Nat.testBit 2 0 = false),
    (by decide : Nat.testBit 2 1 = true),
    (by decide : Nat.testBit 2 2 = false),
    (by decide : Nat.testBit 2 3 = false),
    (by decide : Nat.testBit 2 4 = false),
    (by decide : Nat.testBit 2 5 = false),
    (by decide : Nat.testBit 2 6 = false),
    (by decide : Nat.testBit 2 7 = false),
    (by decide : Nat.testBit 2 8 = false)]

theorem absSgr_or_4 (st : SgrState) :
    absSgr { st with attrs := st.attrs ||| 4 } =
      { absSgr st with italic := true } := by
  simp [absSgr, Nat.testBit_or,
    (by decide : Nat.testBit 4 0 = false),
    (by decide : Nat.testBit 4 1 = false),
    (by decide : Nat.testBit 4 2 = true),
    (by decide : Nat.testBit 4 3 = false),
    (by decide : Nat.testBit 4 4 = false),
    (by decide : Nat.testBit 4 5 = false),
    (by decide : Nat.testBit 4 6 = false),
    (by decide : Nat.testBit 4 7 = false),
    (by decide : Nat.testBit 4 8 = false)]

theorem absSgr_or_8 (st : SgrState) :
    absSgr { st with attrs := st.attrs ||| 8 } =
      { absSgr st with underline := true } := by
  simp [absSgr, Nat.testBit_or,
    (by decide : Nat.testBit 8 0 = false),
    (by decide : Nat.testBit 8 1 = false),
    (by decide : Nat.testBit 8 2 = false),
    (by decide : Nat.testBit 8 3 = true),
    (by decide : Nat.testBit 8 4 = false),
    (by decide : Nat.testBit 8 5 = false),
    (by decide : Nat.testBit 8 6 = false),
    (by decide : Nat.testBit 8 7 = false),
    (by decide : Nat.testBit 8 8 = false)]

theorem absSgr_or_16 (st : SgrState) :
    absSgr { st with attrs := st.attrs ||| 16 } =
      { absSgr st with blinkSlow := true } := by
  simp [absSgr, Nat.testBit_or,
    (by decide : Nat.testBit 16 0 = false),
    (by decide : Nat.testBit 16 1 = false),
    (by decide : Nat.testBit 16 2 = false),
    (by decide : Nat.testBit 16 3 = false),
    (by decide : Nat.testBit 16 4 = true),
    (by decide : Nat.testBit 16 5 = false),
    (by decide : Nat.testBit 16 6 = false),
    (by decide : Nat.testBit 16 7 = false),
    (by decide : Nat.testBit 16 8 = false)]

theorem absSgr_or_32 (st : SgrState) :
    absSgr { st with attrs := st.attrs ||| 32 } =
      { absSgr st with blinkRapid := true } := by
  simp [absSgr, Nat.testBit_or,
    (by decide : Nat.testBit 32 0 = false),
    (by decide : Nat.testBit 32 1 = false),
    (by decide : Nat.testBit 32 2 = false),
    (by decide : Nat.testBit 32 3 = false),
    (by decide : Nat.testBit 32 4 = false),
    (by decide : Nat.testBit 32 5 = true),
    (by decide : Nat.testBit 32 6 = false),
    (by decide : Nat.testBit 32 7 = false),
    (by decide : Nat.testBit 32 8 = false)]

theorem absSgr_or_64 (st : SgrState) :
    absSgr { st with attrs := st.attrs ||| 64 } =
      { absSgr st with inverse := true } := by
  simp [absSgr, Nat.testBit_or,
    (by decide : Nat.testBit 64 0 = false),
    (by decide : Nat.testBit 64 1 = false),
    (by decide : Nat.testBit 64 2 = false),
    (by decide : Nat.testBit 64 3 = false),
    (by decide : Nat.testBit 64 4 = false),
    (by decide : Nat.testBit 64 5 = false),
    (by decide : Nat.testBit 64 6 = true),
    (by decide : Nat.testBit 64 7 = false),
    (by decide : Nat.testBit 64 8 = false)]

theorem absSgr_or_128 (st : SgrState) :
    absSgr { st with attrs := st.attrs ||| 128 } =
      { absSgr st with conceal := true } := by
  simp [absSgr, Nat.testBit_or,
    (by decide : Nat.testBit 128 0 = false),
    (by decide : Nat.testBit 128 1 = false),
    (by decide : Nat.testBit 128 2 = false),
    (by decide : Nat.testBit 128 3 = false),
    (by decide : Nat.testBit 128 4 = false),
    (by decide : Nat.testBit 128 5 = false),
    (by decide : Nat.testBit 128 6 = false),
    (by decide : Nat.testBit 128 7 = true),
    (by decide : Nat.testBit 128 8 = false)]

theorem absSgr_or_256 (st : SgrState) :
    absSgr { st with attrs := st.attrs ||| 256 } =
      { absSgr st with strikethrough := true } := by
  simp [absSgr, Nat.testBit_or,
    (by decide : Nat.testBit 256 0 = false),
    (by decide : Nat.testBit 256 1 = false),
    (by decide : Nat.testBit 256 2 = false),
    (by decide : Nat.testBit 256 3 = false),
    (by decide : Nat.testBit 256 4 = false),
    (by decide : Nat.testBit 256 5 = false),
    (by decide : Nat.testBit 256 6 = false),
    (by decide : Nat.testBit 256 7 = false),
    (by decide : Nat.testBit 256 8 = true)]

theorem absSgr_clear_3 (st : SgrState) :
    absSgr { st with attrs := andNot16 st.attrs 3 } =
      { absSgr st with bold := false, faint := false } := by
  simp [absSgr, andNot16, Nat.testBit_and,
    (by decide : Nat.testBit 65532 0 = false),
    (by decide : Nat.testBit 65532 1 = false),
    (by decide : Nat.testBit 65532 2 = true),
    (by decide : Nat.testBit 65532 3 = true),
    (by decide : Nat.testBit 65532 4 = true),
    (by decide : Nat.testBit 65532 5 = true),
    (by decide : Nat.testBit 65532 6 = true),
    (by decide : Nat.testBit 65532 7 = true),
    (by decide : Nat.testBit 65532 8 = true)]

theorem absSgr_clear_4 (st : SgrState) :
    absSgr { st with attrs := andNot16 st.attrs 4 } =
      { absSgr st with italic := false } := by
  simp [absSgr, andNot16, Nat.testBit_and,
    (by decide : Nat.testBit 65531 0 = true),
    (by decide : Nat.testBit 65531 1 = true),
    (by decide : Nat.testBit 65531 2 = false),
    (by decide : Nat.testBit 65531 3 = true),
    (by decide : Nat.testBit 65531 4 = true),
    (by decide : Nat.testBit 65531 5 = true),
    (by decide : Nat.testBit 65531 6 = true),
    (by decide : Nat.testBit 65531 7 = true),
    (by decide : Nat.testBit 65531 8 = true)]

theorem absSgr_clear_8 (st : SgrState) :
    absSgr { st with attrs := andNot16 st.attrs 8 } =
      { absSgr st with underline := false } := by
  simp [absSgr, andNot16, Nat.testBit_and,
    (by decide : Nat.testBit 65527 0 = true),
    (by decide : Nat.testBit 65527 1 = true),
    (by decide : Nat.testBit 65527 2 = true),
    (by decide : Nat.testBit 65527 3 = false),
    (by decide : Nat.testBit 65527 4 = true),
    (by decide : Nat.testBit 65527 5 = true),
    (by decide : Nat.testBit 65527 6 = true),
    (by decide : Nat.testBit 65527 7 = true),
    (by decide : Nat.testBit 65527 8 = true)]

theorem absSgr_clear_48 (st : SgrState) :
    absSgr { st with attrs := andNot16 st.attrs 48 } =
      { absSgr st with blinkSlow := false, blinkRapid := false } := by
  simp [absSgr, andNot16, Nat.testBit_and,
    (by decide : Nat.testBit 65487 0 = true),
    (by decide : Nat.testBit 65487 1 = true),
    (by decide : Nat.testBit 65487 2 = true),
    (by decide : Nat.testBit 65487 3 = true),
    (by decide : Nat.testBit 65487 4 = false),
    (by decide : Nat.testBit 65487 5 = false),
    (by decide : Nat.testBit 65487 6 = true),
    (by decide : Nat.testBit 65487 7 = true),
    (by decide : Nat.testBit 65487 8 = true)]

theorem absSgr_clear_64 (st : SgrState) :
    absSgr { st with attrs := andNot16 st.attrs 64 } =
      { absSgr st with inverse := false } := by
  simp [absSgr, andNot16, Nat.testBit_and,
    (by decide : Nat.testBit 65471 0 = true),
    (by decide : Nat.testBit 65471 1 = true),
    (by decide : Nat.testBit 65471 2 = true),
    (by decide : Nat.testBit 65471 3 = true),
    (by decide : Nat.testBit 65471 4 = true),
    (by decide : Nat.testBit 65471 5 = true),
    (by decide : Nat.testBit 65471 6 = false),
    (by decide : Nat.testBit 65471 7 = true),
    (by decide : Nat.testBit 65471 8 = true)]

theorem absSgr_clear_128 (st : SgrState) :
    absSgr { st with attrs := andNot16 st.attrs 128 } =
      { absSgr st with conceal := false } := by
  simp [absSgr, andNot16, Nat.testBit_and,
    (by decide : Nat.testBit 65407 0 = true),
    (by decide : Nat.testBit 65407 1 = true),
    (by decide : Nat.testBit 65407 2 = true),
    (by decide : Nat.testBit 65407 3 = true),
    (by decide : Nat.testBit 65407 4 = true),
    (by decide : Nat.testBit 65407 5 = true),
    (by decide : Nat.testBit 65407 6 = true),
    (by decide : Nat.testBit 65407 7 = false),
    (by decide : Nat.testBit 65407 8 = true)]

theorem absSgr_clear_256 (st : SgrState) :
    absSgr { st with attrs := andNot16 st.attrs 256 } =
      { absSgr st with strikethrough := false } := by
  simp [absSgr, andNot16, Nat.testBit_and,
    (by decide : Nat.testBit 65279 0 = true),
    (by decide : Nat.testBit 65279 1 = true),
    (by decide : Nat.testBit 65279 2 = true),
    (by decide : Nat.testBit 65279 3 = true),
    (by decide : Nat.testBit 65279 4 = true),
    (by decide : Nat.testBit 65279 5 = true),
    (by decide : Nat.testBit 65279 6 = true),
    (by decide : Nat.testBit 65279 7 = true),
    (by decide : Nat.testBit 65279 8 = false)]

theorem specSkipExt_eq (l : List Nat) : specSkipExt l = skipExtendedColor l := rfl

theorem absSgr_reset : absSgr SgrState.reset = SpecSgr.resetAll := by decide

theorem or_lt_512 {a : Nat} (m : Nat) (ha : a < 512) (hm : m < 512) :
    a ||| m < 512 := by
  have h9 : (512 : Nat) = 2 ^ 9 := by norm_num
  rw [h9] at ha hm ⊢
  exact Nat.or_lt_two_pow ha hm

theorem andNot16_lt_512 {a : Nat} (m : Nat) (ha : a < 512) :
    andNot16 a m < 512 :=
  lt_of_le_of_lt Nat.and_le_left ha

theorem applyCodesF_attrs_lt :
    ∀ (fuel : Nat) (codes : List Nat) (st : SgrState) (ex : Bool),
      st.attrs < 512 → (applyCodesF fuel codes st ex).1.attrs < 512 := by
  intro fuel
  induction fuel with
  | zero => intro codes st ex h; cases codes <;> exact h
  | succ n ih =>
    intro codes st ex h
    cases codes with
    | nil => exact h
    | cons c rest =>
      rw [show applyCodesF (n + 1) (c :: rest) st ex =
            applyCodesStep (applyCodesF n) c rest st ex from rfl]
      by_cases h0 : c = 0
      · simp only [applyCodesStep, if_pos h0]
        exact ih rest SgrState.reset true (by decide)
      by_cases h1 : c = 1
      · simp only [applyCodesStep, if_neg h0, if_pos h1]
        exact ih rest _ true (or_lt_512 1 h (by decide))
      by_cases h2 : c = 2
      · simp only [applyCodesStep, if_neg h0, if_neg h1, if_pos h2]
        exact ih rest _ true (or_lt_512 2 h (by decide))
      by_cases h3 : c = 3
      · simp only [applyCodesStep, if_neg h0, if_neg h1, if_neg h2, if_pos h3]
        exact ih rest _ true (or_lt_512 4 h (by decide))
      by_cases h4 : c = 4
      · simp only [applyCodesStep, if_neg h0, if_neg h1, if_neg h2, if_neg h3, if_pos h4]
        exact ih rest _ true (or_lt_512 8 h (by decide))
      by_cases h5 : c = 5
      · simp only [applyCodesStep, if_neg h0, if_neg h1, if_neg h2, if_neg h3, if_neg h4, if_pos h5]
        exact ih rest _ true (or_lt_512 16 h (by decide))
      by_cases h6 : c = 6
      · simp only [applyCodesStep, if_neg h0, if_neg h1, if_neg h2, if_neg h3, if_neg h4, if_neg h5, if_pos h6]
        exact ih rest _ true (or_lt_512 32 h (by decide))
      by_cases h7 : c = 7
      · simp only [applyCodesStep, if_neg h0, if_neg h1, if_neg h2, if_neg h3, if_neg h4, if_neg h5, if_neg h6, if_pos h7]
        exact ih rest _ true (or_lt_512 64 h (by decide))
      by_cases h8 : c = 8
      · simp only [applyCodesStep, if_neg h0, if_neg h1, if_neg h2, if_neg h3, if_neg h4, if_neg h5, if_neg h6, if_neg h7, if_pos h8]
        exact ih rest _ true (or_lt_512 128 h (by decide))
      by_cases h9 : c = 9
      · simp only [applyCodesStep, if_neg h0, if_neg h1, if_neg h2, if_neg h3, if_neg h4, if_neg h5, if_neg h6, if_neg h7, if_neg h8, if_pos h9]
        exact ih rest _ true (or_lt_512 256 h (by decide))
      by_cases h22 : c = 22
      · simp only [applyCodesStep, if_neg h0, if_neg h1, if_neg h2, if_neg h3, if_neg h4, if_neg h5, if_neg h6, if_neg h7, if_neg h8, if_neg h9, if_pos h22]
        exact ih rest _ true (andNot16_lt_512 3 h)
      by_cases h23 : c = 23
      · simp only [applyCodesStep, if_neg h0, if_neg h1, if_neg h2, if_neg h3, if_neg h4, if_neg h5, if_neg h6, if_neg h7, if_neg h8, if_neg h9, if_neg h22, if_pos h23]
        exact ih rest _ true (andNot16_lt_512 4 h)
      by_cases h24 : c = 24
      · simp only [applyCodesStep, if_neg h0, if_neg h1, if_neg h2, if_neg h3, if_neg h4, if_neg h5, if_neg h6, if_neg h7, if_neg h8, if_neg h9, if_neg h22, if_neg h23, if_pos h24]
        exact ih rest _ true (andNot16_lt_512 8 h)
      by_cases h25 : c = 25
      · simp only [applyCodesStep, if_neg h0, if_neg h1, if_neg h2, if_neg h3, if_neg h4, if_neg h5, if_neg h6, if_neg h7, if_neg h8, if_neg h9, if_neg h22, if_neg h23, if_neg h24, if_pos h25]
        exact ih rest _ true (andNot16_lt_512 48 h)
      by_cases h27 : c = 27
      · simp only [applyCodesStep, if_neg h0, if_neg h1, if_neg h2, if_neg h3, if_neg h4, if_neg h5, if_neg h6, if_neg h7, if_neg h8, if_neg h9, if_neg h22, if_neg h23, if_neg h24, if_neg h25, if_pos h27]
        exact ih rest _ true (andNot16_lt_512 64 h)
      by_cases h28 : c = 28
      · simp only [applyCodesStep, if_neg h0, if_neg h1, if_neg h2, if_neg h3, if_neg h4, if_neg h5, if_neg h6, if_neg h7, if_neg h8, if_neg h9, if_neg h22, if_neg h23, if_neg h24, if_neg h25, if_neg h27, if_pos h28]
        exact ih rest _ true (andNot16_lt_512 128 h)
      by_cases h29 : c = 29
      · simp only [applyCodesStep, if_neg h0, if_neg h1, if_neg h2, if_neg h3, if_neg h4, if_neg h5, if_neg h6, if_neg h7, if_neg h8, if_neg h9, if_neg h22, if_neg h23, if_neg h24, if_neg h25, if_neg h27, if_neg h28, if_pos h29]
        exact ih rest _ true (andNot16_lt_512 256 h)
      by_cases h39 : c = 39
      · simp only [applyCodesStep, if_neg h0, if_neg h1, if_neg h2, if_neg h3, if_neg h4, if_neg h5, if_neg h6, if_neg h7, if_neg h8, if_neg h9, if_neg h22, if_neg h23, if_neg h24, if_neg h25, if_neg h27, if_neg h28, if_neg h29, if_pos h39]
        exact ih rest _ true h
      by_cases h49 : c = 49
      · simp only [applyCodesStep, if_neg h0, if_neg h1, if_neg h2, if_neg h3, if_neg h4, if_neg h5, if_neg h6, if_neg h7, if_neg h8, if_neg h9, if_neg h22, if_neg h23, if_neg h24, if_neg h25, if_neg h27, if_neg h28, if_neg h29, if_neg h39, if_pos h49]
        exact ih rest _ true h
      by_cases hfg : (30 ≤ c ∧ c ≤ 37) ∨ (90 ≤ c ∧ c ≤ 97)
      · simp only [applyCodesStep, if_neg h0, if_neg h1, if_neg h2, if_neg h3, if_neg h4, if_neg h5, if_neg h6, if_neg h7, if_neg h8, if_neg h9, if_neg h22, if_neg h23, if_neg h24, if_neg h25, if_neg h27, if_neg h28, if_neg h29, if_neg h39, if_neg h49, if_pos hfg]
        exact ih rest _ true h
      by_cases h38 : c = 38
      · simp only [applyCodesStep, if_neg h0, if_neg h1, if_neg h2, if_neg h3, if_neg h4, if_neg h5, if_neg h6, if_neg h7, if_neg h8, if_neg h9, if_neg h22, if_neg h23, if_neg h24, if_neg h25, if_neg h27, if_neg h28, if_neg h29, if_neg h39, if_neg h49, if_neg hfg, if_pos h38]
        exact ih (rest.drop (skipExtendedColor rest)) _ true h
      by_cases hbg : (40 ≤ c ∧ c ≤ 47) ∨ (100 ≤ c ∧ c ≤ 107)
      · simp only [applyCodesStep, if_neg h0, if_neg h1, if_neg h2, if_neg h3, if_neg h4, if_neg h5, if_neg h6, if_neg h7, if_neg h8, if_neg h9, if_neg h22, if_neg h23, if_neg h24, if_neg h25, if_neg h27, if_neg h28, if_neg h29, if_neg h39, if_neg h49, if_neg hfg, if_neg h38, if_pos hbg]
        exact ih rest _ true h
      by_cases h48 : c = 48
      · simp only [applyCodesStep, if_neg h0, if_neg h1, if_neg h2, if_neg h3, if_neg h4, if_neg h5, if_neg h6, if_neg h7, if_neg h8, if_neg h9, if_neg h22, if_neg h23, if_neg h24, if_neg h25, if_neg h27, if_neg h28, if_neg h29, if_neg h39, if_neg h49, if_neg hfg, if_neg h38, if_neg hbg, if_pos h48]
        exact ih (rest.drop (skipExtendedColor rest)) _ true h
      simp only [applyCodesStep, if_neg h0, if_neg h1, if_neg h2, if_neg h3, if_neg h4, if_neg h5, if_neg h6, if_neg h7, if_neg h8, if_neg h9, if_neg h22, if_neg h23, if_neg h24, if_neg h25, if_neg h27, if_neg h28, if_neg h29, if_neg h39, if_neg h49, if_neg hfg, if_neg h38, if_neg hbg, if_neg h48]
      exact ih rest st ex h

theorem applyCodesF_abs :
    ∀ (fuel : Nat) (codes : List Nat) (st : SgrState) (ex : Bool),
      absSgr (applyCodesF fuel codes st ex).1 =
        specApplyCodesF fuel codes (absSgr st) := by
  intro fuel
  induction fuel with
  | zero => intro codes st ex; cases codes <;> rfl
  | succ n ih =>
    intro codes st ex
    cases codes with
    | nil => rfl
    | cons c rest =>
      rw [show applyCodesF (n + 1) (c :: rest) st ex =
            applyCodesStep (applyCodesF n) c rest st ex from rfl,
        show specApplyCodesF (n + 1) (c :: rest) (absSgr st) =
            specApplyStep (specApplyCodesF n) c rest (absSgr st) from rfl]
      by_cases h0 : c = 0
      · simp only [applyCodesStep, specApplyStep, if_pos h0]
        rw [ih]
        exact congrArg _ absSgr_reset
      by_cases h1 : c = 1
      · simp only [applyCodesStep, specApplyStep, if_neg h0, if_pos h1]
        rw [ih]
        exact congrArg _ (absSgr_or_1 st)
      by_cases h2 : c = 2
      · simp only [applyCodesStep, specApplyStep, if_neg h0, if_neg h1, if_pos h2]
        rw [ih]
        exact congrArg _ (absSgr_or_2 st)
      by_cases h3 : c = 3
      · simp only [applyCodesStep, specApplyStep, if_neg h0, if_neg h1, if_neg h2, if_pos h3]
        rw [ih]
        exact congrArg _ (absSgr_or_4 st)
      by_cases h4 : c = 4
      · simp only [applyCodesStep, specApplyStep, if_neg h0, if_neg h1, if_neg h2, if_neg h3, if_pos h4]
        rw [ih]
        exact congrArg _ (absSgr_or_8 st)
      by_cases h5 : c = 5
      · simp only [applyCodesStep, specApplyStep, if_neg h0, if_neg h1, if_neg h2, if_neg h3, if_neg h4, if_pos h5]
        rw [ih]
        exact congrArg _ (absSgr_or_16 st)
      by_cases h6 : c = 6
      · simp only [applyCodesStep, specApplyStep, if_neg h0, if_neg h1, if_neg h2, if_neg h3, if_neg h4, if_neg h5, if_pos h6]
        rw [ih]
        exact congrArg _ (absSgr_or_32 st)
      by_cases h7 : c = 7
      · simp only [applyCodesStep, specApplyStep, if_neg h0, if_neg h1, if_neg h2, if_neg h3, if_neg h4, if_neg h5, if_neg h6, if_pos h7]
        rw [ih]
        exact congrArg _ (absSgr_or_64 st)
      by_cases h8 : c = 8
      · simp only [applyCodesStep, specApplyStep, if_neg h0, if_neg h1, if_neg h2, if_neg h3, if_neg h4, if_neg h5, if_neg h6, if_neg h7, if_pos h8]
        rw [ih]
        exact congrArg _ (absSgr_or_128 st)
      by_cases h9 : c = 9
      · simp only [applyCodesStep, specApplyStep, if_neg h0, if_neg h1, if_neg h2, if_neg h3, if_neg h4, if_neg h5, if_neg h6, if_neg h7, if_neg h8, if_pos h9]
        rw [ih]
        exact congrArg _ (absSgr_or_256 st)
      by_cases h22 : c = 22
      · simp only [applyCodesStep, specApplyStep, if_neg h0, if_neg h1, if_neg h2, if_neg h3, if_neg h4, if_neg h5, if_neg h6, if_neg h7, if_neg h8, if_neg h9, if_pos h22]
        rw [ih]
        exact congrArg _ (absSgr_clear_3 st)
      by_cases h23 : c = 23
      · simp only [applyCodesStep, specApplyStep, if_neg h0, if_neg h1, if_neg h2, if_neg h3, if_neg h4, if_neg h5, if_neg h6, if_neg h7, if_neg h8, if_neg h9, if_neg h22, if_pos h23]
        rw [ih]
        exact congrArg _ (absSgr_clear_4 st)
      by_cases h24 : c = 24
      · simp only [applyCodesStep, specApplyStep, if_neg h0, if_neg h1, if_neg h2, if_neg h3, if_neg h4, if_neg h5, if_neg h6, if_neg h7, if_neg h8, if_neg h9, if_neg h22, if_neg h23, if_pos h24]
        rw [ih]
        exact congrArg _ (absSgr_clear_8 st)
      by_cases h25 : c = 25
      · simp only [applyCodesStep, specApplyStep, if_neg h0, if_neg h1, if_neg h2, if_neg h3, if_neg h4, if_neg h5, if_neg h6, if_neg h7, if_neg h8, if_neg h9, if_neg h22, if_neg h23, if_neg h24, if_pos h25]
        rw [ih]
        exact congrArg _ (absSgr_clear_48 st)
      by_cases h27 : c = 27
      · simp only [applyCodesStep, specApplyStep, if_neg h0, if_neg h1, if_neg h2, if_neg h3, if_neg h4, if_neg h5, if_neg h6, if_neg h7, if_neg h8, if_neg h9, if_neg h22, if_neg h23, if_neg h24, if_neg h25, if_pos h27]
        rw [ih]
        exact congrArg _ (absSgr_clear_64 st)
      by_cases h28 : c = 28
      · simp only [applyCodesStep, specApplyStep, if_neg h0, if_neg h1, if_neg h2, if_neg h3, if_neg h4, if_neg h5, if_neg h6, if_neg h7, if_neg h8, if_neg h9, if_neg h22, if_neg h23, if_neg h24, if_neg h25, if_neg h27, if_pos h28]
        rw [ih]
        exact congrArg _ (absSgr_clear_128 st)
      by_cases h29 : c = 29
      · simp only [applyCodesStep, specApplyStep, if_neg h0, if_neg h1, if_neg h2, if_neg h3, if_neg h4, if_neg h5, if_neg h6, if_neg h7, if_neg h8, if_neg h9, if_neg h22, if_neg h23, if_neg h24, if_neg h25, if_neg h27, if_neg h28, if_pos h29]
        rw [ih]
        exact congrArg _ (absSgr_clear_256 st)
      by_cases h39 : c = 39
      · simp only [applyCodesStep, specApplyStep, if_neg h0, if_neg h1, if_neg h2, if_neg h3, if_neg h4, if_neg h5, if_neg h6, if_neg h7, if_neg h8, if_neg h9, if_neg h22, if_neg h23, if_neg h24, if_neg h25, if_neg h27, if_neg h28, if_neg h29, if_pos h39]
        rw [ih]
        rfl
      by_cases h49 : c = 49
      · simp only [applyCodesStep, specApplyStep, if_neg h0, if_neg h1, if_neg h2, if_neg h3, if_neg h4, if_neg h5, if_neg h6, if_neg h7, if_neg h8, if_neg h9, if_neg h22, if_neg h23, if_neg h24, if_neg h25, if_neg h27, if_neg h28, if_neg h29, if_neg h39, if_pos h49]
        rw [ih]
        rfl
      by_cases hfg : (30 ≤ c ∧ c ≤ 37) ∨ (90 ≤ c ∧ c ≤ 97)
      · simp only [applyCodesStep, specApplyStep, if_neg h0, if_neg h1, if_neg h2, if_neg h3, if_neg h4, if_neg h5, if_neg h6, if_neg h7, if_neg h8, if_neg h9, if_neg h22, if_neg h23, if_neg h24, if_neg h25, if_neg h27, if_neg h28, if_neg h29, if_neg h39, if_neg h49, if_pos hfg]
        rw [ih]
        rfl
      by_cases h38 : c = 38
      · simp only [applyCodesStep, specApplyStep, if_neg h0, if_neg h1, if_neg h2, if_neg h3, if_neg h4, if_neg h5, if_neg h6, if_neg h7, if_neg h8, if_neg h9, if_neg h22, if_neg h23, if_neg h24, if_neg h25, if_neg h27, if_neg h28, if_neg h29, if_neg h39, if_neg h49, if_neg hfg, if_pos h38]
        rw [ih, specSkipExt_eq]
        rfl
      by_cases hbg : (40 ≤ c ∧ c ≤ 47) ∨ (100 ≤ c ∧ c ≤ 107)
      · simp only [applyCodesStep, specApplyStep, if_neg h0, if_neg h1, if_neg h2, if_neg h3, if_neg h4, if_neg h5, if_neg h6, if_neg h7, if_neg h8, if_neg h9, if_neg h22, if_neg h23, if_neg h24, if_neg h25, if_neg h27, if_neg h28, if_neg h29, if_neg h39, if_neg h49, if_neg hfg, if_neg h38, if_pos hbg]
        rw [ih]
        rfl
      by_cases h48 : c = 48
      · simp only [applyCodesStep, specApplyStep, if_neg h0, if_neg h1, if_neg h2, if_neg h3, if_neg h4, if_neg h5, if_neg h6, if_neg h7, if_neg h8, if_neg h9, if_neg h22, if_neg h23, if_neg h24, if_neg h25, if_neg h27, if_neg h28, if_neg h29, if_neg h39, if_neg h49, if_neg hfg, if_neg h38, if_neg hbg, if_pos h48]
        rw [ih, specSkipExt_eq]
        rfl
      simp only [applyCodesStep, specApplyStep, if_neg h0, if_neg h1, if_neg h2, if_neg h3, if_neg h4, if_neg h5, if_neg h6, if_neg h7, if_neg h8, if_neg h9, if_neg h22, if_neg h23, if_neg h24, if_neg h25, if_neg h27, if_neg h28, if_neg h29, if_neg h39, if_neg h49, if_neg hfg, if_neg h38, if_neg hbg, if_neg h48]
      exact ih rest st ex

theorem parse_foldl_eq :
    ∀ (f : List Nat) (acc : Nat), (∀ b ∈ f, 48 ≤ b ∧ b ≤ 57) →
      (acc + 1) * 10 ^ f.length ≤ 18446744073709551616 →
      f.foldl
        (fun n b =>
          if 48 ≤ b ∧ b ≤ 57 then (n * 10 + (b - 48)) % 18446744073709551616
          else n) acc =
      f.foldl (fun n b => n * 10 + (b - 48)) acc := by
  intro f
  induction f with
  | nil => intro acc _ _; rfl
  | cons d rest ih =>
    intro acc hd hb
    have hd0 : 48 ≤ d ∧ d ≤ 57 := hd d (List.mem_cons_self d rest)
    have h10 : (10 : Nat) ≤ 10 ^ (rest.length + 1) := by
      calc (10 : Nat) = 10 ^ 1 := (pow_one 10).symm
      _ ≤ 10 ^ (rest.length + 1) := Nat.pow_le_pow_right (by norm_num) (by omega)
    have hstep : (acc + 1) * 10 ≤ (acc + 1) * 10 ^ (rest.length + 1) :=
      Nat.mul_le_mul_left _ h10
    have hlen : (acc + 1) * 10 ^ (rest.length + 1) ≤ 18446744073709551616 := by
      simpa using hb
    have hlt : acc * 10 + (d - 48) < 18446744073709551616 := by omega
    simp only [List.foldl_cons, if_pos hd0, Nat.mod_eq_of_lt hlt]
    apply ih
    · exact fun b hb' => hd b (List.mem_cons_of_mem _ hb')
    · calc (acc * 10 + (d - 48) + 1) * 10 ^ rest.length
          ≤ (acc + 1) * 10 * 10 ^ rest.length :=
            Nat.mul_le_mul_right _ (by omega)
      _ = (acc + 1) * 10 ^ (rest.length + 1) := by ring
      _ ≤ 18446744073709551616 := hlen

theorem parseNumber_eq_specDecimal (f : List Nat)
    (hd : ∀ b ∈ f, 48 ≤ b ∧ b ≤ 57) (hl : f.length ≤ 18) :
    parseNumber f = specDecimal f := by
  apply parse_foldl_eq f 0 hd
  calc (0 + 1) * 10 ^ f.length = 10 ^ f.length := by ring
  _ ≤ 10 ^ 18 := Nat.pow_le_pow_right (by norm_num) hl
  _ ≤ 18446744073709551616 := by norm_num

theorem splitSemi_ne_nil : ∀ l : List Nat, splitSemi l ≠ [] := by
  intro l
  cases l with
  | nil => simp [splitSemi]
  | cons b rest =>
    simp only [splitSemi]
    split_ifs
    · simp
    · rcases h : splitSemi rest with _ | ⟨g, gs⟩ <;> simp

theorem splitSemi_mem :
    ∀ (params f : List Nat), f ∈ splitSemi params → ∀ b ∈ f, b ∈ params ∧ b ≠ 59 := by
  intro params
  induction params with
  | nil =>
    intro f hf b hb
    simp [splitSemi] at hf
    subst hf
    simp at hb
  | cons x rest ih =>
    intro f hf b hb
    by_cases hx : x = 59
    · rw [show splitSemi (x :: rest) = [] :: splitSemi rest by
          simp [splitSemi, hx]] at hf
      rcases List.mem_cons.mp hf with hf | hf
      · subst hf; simp at hb
      · obtain ⟨h1, h2⟩ := ih f hf b hb
        exact ⟨List.mem_cons_of_mem _ h1, h2⟩
    · obtain ⟨g, gs, hsplit⟩ : ∃ g gs, splitSemi rest = g :: gs := by
        rcases h : splitSemi rest with _ | ⟨g, gs⟩
        · exact absurd h (splitSemi_ne_nil rest)
        · exact ⟨g, gs, rfl⟩
      rw [show splitSemi (x :: rest) = (x :: g) :: gs by
          simp [splitSemi, hx, hsplit]] at hf
      rcases List.mem_cons.mp hf with hf | hf
      · subst hf
        rcases List.mem_cons.mp hb with hb | hb
        · exact ⟨by simp [hb], by rw [hb]; exact hx⟩
        · obtain ⟨h1, h2⟩ :=
            ih g (by rw [hsplit]; exact List.mem_cons_self _ _) b hb
          exact ⟨List.mem_cons_of_mem _ h1, h2⟩
      · obtain ⟨h1, h2⟩ :=
          ih f (by rw [hsplit]; exact List.mem_cons_of_mem _ hf) b hb
        exact ⟨List.mem_cons_of_mem _ h1, h2⟩

theorem parseCSIParams_eq_specFields (params : List Nat)
    (hbytes : ∀ b ∈ params, (48 ≤ b ∧ b ≤ 57) ∨ b = 59)
    (hfields : ∀ f ∈ splitSemi params, f.length ≤ 18) :
    parseCSIParams params = specFields params := by
  unfold parseCSIParams specFields
  apply List.map_congr_left
  intro f hf
  by_cases hempty : f = []
  · simp [hempty]
  · rw [if_neg hempty, if_neg hempty]
    apply parseNumber_eq_specDecimal
    · intro b hb
      obtain ⟨hmem, hne⟩ := splitSemi_mem params f hf b hb
      rcases hbytes b hmem with h | h
      · exact h
      · exact absurd h hne
    · exact hfields f hf

theorem bne_zero_eq_testBits (a : Nat) (h : a < 512) :
    (a != 0) =
      (a.testBit 0 || a.testBit 1 || a.testBit 2 || a.testBit 3 || a.testBit 4 ||
        a.testBit 5 || a.testBit 6 || a.testBit 7 || a.testBit 8) := by
  by_cases h0 : a = 0
  · subst h0; rfl
  · have hl : (a != 0) = true := by simpa using h0
    rw [hl]
    by_contra hc
    have hfalse :
        (a.testBit 0 || a.testBit 1 || a.testBit 2 || a.testBit 3 || a.testBit 4 ||
          a.testBit 5 || a.testBit 6 || a.testBit 7 || a.testBit 8) = false := by
      cases hdisj : (a.testBit 0 || a.testBit 1 || a.testBit 2 || a.testBit 3 ||
          a.testBit 4 || a.testBit 5 || a.testBit 6 || a.testBit 7 || a.testBit 8)
      · rfl
      · exact absurd hdisj.symm hc
    simp only [Bool.or_eq_false_iff] at hfalse
    obtain ⟨⟨⟨⟨⟨⟨⟨⟨hb0, hb1⟩, hb2⟩, hb3⟩, hb4⟩, hb5⟩, hb6⟩, hb7⟩, hb8⟩ := hfalse
    apply h0
    apply Nat.eq_of_testBit_eq
    intro i
    simp only [Nat.zero_testBit]
    match i with
    | 0 => exact hb0
    | 1 => exact hb1
    | 2 => exact hb2
    | 3 => exact hb3
    | 4 => exact hb4
    | 5 => exact hb5
    | 6 => exact hb6
    | 7 => exact hb7
    | 8 => exact hb8
    | i + 9 =>
      apply Nat.testBit_eq_false_of_lt
      calc a < 512 := h
      _ = 2 ^ 9 := by norm_num
      _ ≤ 2 ^ (i + 9) := Nat.pow_le_pow_right (by norm_num) (by omega)

/-- C8: for every SGR parameter byte list made of decimal digits and
semicolons (with every field at most 18 digits, within Go `int` range) and
every reachable style state, the code's interpretation agrees with the
spec's bullet list — semicolon-separated decimal codes, empty field = 0,
missing list = implicit reset, codes 0, 1..9, 22..25, 27..29, 30..37,
90..97, 39, 40..47, 100..107 and 49 acting on the named flags, and 38, 48
setting foreground- and background-active while skipping 2 parameters
after a 5 and 4 after a 2 — and afterwards `styled` equals (any attribute
set OR foreground-active OR background-active). -/
theorem c8_sgr_interpretation (params : List Nat) (st : SgrState)
    (hbytes : ∀ b ∈ params, (48 ≤ b ∧ b ≤ 57) ∨ b = 59)
    (hfields : ∀ f ∈ splitSemi params, f.length ≤ 18)
    (hattrs : st.attrs < 512) :
    absSgr (applySGRParams params st).1 = sgrSpecApply params (absSgr st) ∧
      (applySGRParams params st).1.styled =
        (specAnyAttr (absSgr (applySGRParams params st).1) ||
          (applySGRParams params st).1.fgActive ||
          (applySGRParams params st).1.bgActive) := by
  have habs : absSgr (applySGRParams params st).1 = sgrSpecApply params (absSgr st) := by
    by_cases hp : params = []
    · subst hp
      show absSgr SgrState.reset = sgrSpecApply [] (absSgr st)
      rw [absSgr_reset]
      rfl
    · show absSgr (if params = [] then (SgrState.reset, true)
          else applyCodes (parseCSIParams params) st false).1 = _
      rw [if_neg hp, sgrSpecApply, if_neg hp,
        parseCSIParams_eq_specFields params hbytes hfields]
      exact applyCodesF_abs _ _ st false
  have hlt : (applySGRParams params st).1.attrs < 512 := by
    show (if params = [] then (SgrState.reset, true)
        else applyCodes (parseCSIParams params) st false).1.attrs < 512
    split_ifs
    · exact (by decide : (SgrState.reset).attrs < 512)
    · exact applyCodesF_attrs_lt _ _ st false hattrs
  refine ⟨habs, ?_⟩
  show ((applySGRParams params st).1.fgActive || (applySGRParams params st).1.bgActive ||
      ((applySGRParams params st).1.attrs != 0)) = _
  rw [bne_zero_eq_testBits _ hlt]
  simp only [specAnyAttr, absSgr]
  cases (applySGRParams params st).1.fgActive <;>
    cases (applySGRParams params st).1.bgActive <;>
    simp [Bool.or_comm, Bool.or_left_comm, Bool.or_assoc]

/-- Witness for `c8_sgr_interpretation` on `38;5;196;1` from the blank
style state. -/
theorem c8_sgr_interpretation_witness :
    absSgr (applySGRParams [51, 56, 59, 53, 59, 49, 57, 54, 59, 49]
        ⟨false, false, 0⟩).1 =
      sgrSpecApply [51, 56, 59, 53, 59, 49, 57, 54, 59, 49]
        (absSgr ⟨false, false, 0⟩) ∧
    (applySGRParams [51, 56, 59, 53, 59, 49, 57, 54, 59, 49]
        ⟨false, false, 0⟩).1.styled =
      (specAnyAttr (absSgr (applySGRParams [51, 56, 59, 53, 59, 49, 57, 54, 59, 49]
          ⟨false, false, 0⟩).1) ||
        (applySGRParams [51, 56, 59, 53, 59, 49, 57, 54, 59, 49]
          ⟨false, false, 0⟩).1.fgActive ||
        (applySGRParams [51, 56, 59, 53, 59, 49, 57, 54, 59, 49]
          ⟨false, false, 0⟩).1.bgActive) :=
  c8_sgr_interpretation [51, 56, 59, 53, 59, 49, 57, 54, 59, 49]
    ⟨false, false, 0⟩ (by decide) (by decide) (by decide)

/-! ## Theorems: CSI sequences ending in `m` are SGR (C10) -/

theorem isCSIParamByte_iff (b : Nat) : isCSIParamByte b = true ↔ 48 ≤ b ∧ b ≤ 63 := by
  simp [isCSIParamByte]

theorem isCSIIntermediateByte_iff (b : Nat) :
    isCSIIntermediateByte b = true ↔ 32 ≤ b ∧ b ≤ 47 := by
  simp [isCSIIntermediateByte]

theorem isCSIFinalByte_iff (b : Nat) : isCSIFinalByte b = true ↔ 64 ≤ b ∧ b ≤ 126 := by
  simp [isCSIFinalByte]

theorem feedLoop_csi_accum (P : List Nat) :
    ∀ t : AnsiTokenizer, t.state = .csiS →
      (∀ b ∈ P, isCSIParamByte b = true ∨ isCSIIntermediateByte b = true) →
      t.buf.length + P.length ≤ 4096 →
      feedLoop t P = ({ t with buf := t.buf ++ P }, []) := by
  induction P with
  | nil =>
    intro t ht _ _
    simp [feedLoop]
  | cons b rest ih =>
    intro t ht hb hlen
    have hbb := hb b (List.mem_cons_self b rest)
    have hnotfinal : ¬ isCSIFinalByte b = true := by
      rw [isCSIFinalByte_iff]
      rcases hbb with h | h
      · rw [isCSIParamByte_iff] at h; omega
      · rw [isCSIIntermediateByte_iff] at h; omega
    have hstep : stepByte t b = ({ t with buf := t.buf ++ [b] }, []) := by
      rcases t with ⟨buf, st, prev, sgr, in8⟩
      simp only [AnsiTokenizer.state] at ht
      subst ht
      simp only [stepByte]
      rw [if_neg hnotfinal, if_neg (by
        rcases hbb with h | h
        · intro hc
          exact hc.1 h
        · intro hc
          exact hc.2 h)]
    have hcap : capCheck { t with buf := t.buf ++ [b] } =
        ({ t with buf := t.buf ++ [b] }, []) := by
      simp only [capCheck]
      rw [if_neg (by
        simp only [List.length_append, List.length_cons, List.length_nil]
        simp only [List.length_cons] at hlen
        simp [maxBufferSize]
        omega)]
    show (let r1 := feedByte t b
      let r2 := feedLoop r1.1 rest
      (r2.1, r1.2 ++ r2.2)) = _
    simp only [feedByte, hstep, hcap]
    rw [ih { t with buf := t.buf ++ [b] } ht
        (fun x hx => hb x (List.mem_cons_of_mem _ hx))
        (by simp only [List.length_append, List.length_cons, List.length_nil]
            simp only [List.length_cons] at hlen
            omega)]
    simp

theorem feedLoop_append (xs ys : List Nat) :
    ∀ t : AnsiTokenizer,
      feedLoop t (xs ++ ys) =
        ((feedLoop (feedLoop t xs).1 ys).1,
          (feedLoop t xs).2 ++ (feedLoop (feedLoop t xs).1 ys).2) := by
  induction xs with
  | nil => intro t; simp [feedLoop]
  | cons b rest ih =>
    intro t
    show (let r1 := feedByte t b
      let r2 := feedLoop r1.1 (rest ++ ys)
      (r2.1, r1.2 ++ r2.2)) = _
    simp only [feedLoop, ih (feedByte t b).1, List.append_assoc]

theorem emitCSI_concat (l : List Nat) (t : AnsiTokenizer)
    (hb : t.buf = l ++ [109]) (hlen : l.length ≥ 2) :
    emitCSI t =
      ({ kind := .sgr, data := l ++ [109],
         styled := ((applySGRParams (l.drop 2) t.sgr).1).styled },
        (applySGRParams (l.drop 2) t.sgr).1) := by
  unfold emitCSI
  rw [hb]
  rw [if_pos ⟨by simp; omega, by simp⟩]
  have ht : (l ++ [109]).take ((l ++ [109]).length - 1) = l :=
    List.take_left' (by simp)
  rw [ht]

theorem specFold_congr_mod (M : Nat) :
    ∀ (l : List Nat) (x y : Nat), x % M = y % M →
      (l.foldl (fun n b => n * 10 + (b - 48)) x) % M =
        (l.foldl (fun n b => n * 10 + (b - 48)) y) % M := by
  intro l
  induction l with
  | nil => intro x y h; exact h
  | cons d rest ih =>
    intro x y h
    simp only [List.foldl_cons]
    exact ih _ _ (Nat.ModEq.add_right _ (Nat.ModEq.mul_right 10 h))

theorem parseNumber_filter_mod :
    ∀ (s : List Nat) (acc : Nat), acc < 18446744073709551616 →
      s.foldl
        (fun n b =>
          if 48 ≤ b ∧ b ≤ 57 then (n * 10 + (b - 48)) % 18446744073709551616
          else n) acc =
      ((s.filter fun b => 48 ≤ b && b ≤ 57).foldl
        (fun n b => n * 10 + (b - 48)) acc) % 18446744073709551616 := by
  intro s
  induction s with
  | nil => intro acc hacc; simp [Nat.mod_eq_of_lt hacc]
  | cons b rest ih =>
    intro acc hacc
    by_cases hd : 48 ≤ b ∧ b ≤ 57
    · have hfil : ((b :: rest).filter fun x => 48 ≤ x && x ≤ 57) =
          b :: (rest.filter fun x => 48 ≤ x && x ≤ 57) := by
        simp [List.filter_cons, hd.1, hd.2]
      rw [hfil]
      simp only [List.foldl_cons, if_pos hd]
      rw [ih _ (Nat.mod_lt _ (by norm_num))]
      exact specFold_congr_mod _ _ _ _ (by omega)
    · have hfil : ((b :: rest).filter fun x => 48 ≤ x && x ≤ 57) =
          (rest.filter fun x => 48 ≤ x && x ≤ 57) := by
        rw [List.filter_cons, if_neg]
        simp only [Bool.and_eq_true, decide_eq_true_eq]
        exact hd
      rw [hfil]
      simp only [List.foldl_cons, if_neg hd]
      exact ih _ hacc

theorem parseNumber_char (s : List Nat) :
    parseNumber s =
      specDecimal (s.filter fun b => 48 ≤ b && b ≤ 57) % 18446744073709551616 :=
  parseNumber_filter_mod s 0 (by norm_num)

theorem feedLoop_csi_full (mid : List Nat)
    (hmid : ∀ b ∈ mid, isCSIParamByte b = true ∨ isCSIIntermediateByte b = true)
    (hlen : mid.length ≤ 4094) :
    feedLoop NewAnsiTokenizer ([27, 91] ++ (mid ++ [109])) =
      ({ buf := [], state := .ground, prevState := .ground,
         sgr := (applySGRParams mid ⟨false, false, 0⟩).1, inOSC8 := false },
        [{ kind := .sgr, data := ([27, 91] ++ mid) ++ [109],
           styled := ((applySGRParams mid ⟨false, false, 0⟩).1).styled }]) := by
  have h1 : feedLoop NewAnsiTokenizer [27, 91] =
      ({ buf := [27, 91], state := .csiS, prevState := .ground,
         sgr := ⟨false, false, 0⟩, inOSC8 := false }, []) := by decide
  have h2 := feedLoop_csi_accum mid
    { buf := [27, 91], state := .csiS, prevState := .ground,
      sgr := ⟨false, false, 0⟩, inOSC8 := false }
    rfl hmid (by simp only [List.length_cons, List.length_nil]; omega)
  have hstep : feedByte
      { buf := [27, 91] ++ mid, state := .csiS, prevState := .ground,
        sgr := ⟨false, false, 0⟩, inOSC8 := false } 109 =
      ({ buf := [], state := .ground, prevState := .ground,
         sgr := (applySGRParams mid ⟨false, false, 0⟩).1, inOSC8 := false },
        [{ kind := .sgr, data := ([27, 91] ++ mid) ++ [109],
           styled := ((applySGRParams mid ⟨false, false, 0⟩).1).styled }]) := by
    have hemit := emitCSI_concat ([27, 91] ++ mid)
      { buf := ([27, 91] ++ mid) ++ [109], state := .csiS, prevState := .ground,
        sgr := ⟨false, false, 0⟩, inOSC8 := false }
      rfl (by simp)
    have hdrop : ([27, 91] ++ mid).drop 2 = mid := by simp
    rw [hdrop] at hemit
    simp only [feedByte, stepByte, if_pos (by decide : isCSIFinalByte 109 = true),
      hemit, capCheck]
    simp [maxBufferSize]
  have h2' : feedLoop
      { buf := [27, 91], state := .csiS, prevState := .ground,
        sgr := ⟨false, false, 0⟩, inOSC8 := false } mid =
      ({ buf := [27, 91] ++ mid, state := .csiS, prevState := .ground,
         sgr := ⟨false, false, 0⟩, inOSC8 := false }, []) := h2
  have hsingle : ∀ t : AnsiTokenizer,
      feedLoop t [109] = ((feedByte t 109).1, (feedByte t 109).2 ++ []) :=
    fun t => rfl
  rw [feedLoop_append, h1]
  simp only
  rw [feedLoop_append, h2']
  simp only
  rw [hsingle, hstep]
  simp

/-- C10: every complete CSI sequence (`ESC [`, parameter/intermediate
bytes, final byte `m`) is classified as SGR and applied to the style
state; each semicolon-separated field is parsed by discarding non-digit
bytes and concatenating the remaining digits (modulo the Go `int` wrap);
concretely `ESC [ 4 : 3 m` parses as the single code 43 and sets
background-active, and `ESC [ ? 2 5 m` parses as code 25 and clears both
blink bits. -/
theorem c10_csi_m_is_sgr (mid : List Nat)
    (hmid : ∀ b ∈ mid, isCSIParamByte b = true ∨ isCSIIntermediateByte b = true)
    (hlen : mid.length ≤ 4094) :
    (NewAnsiTokenizer.Feed ([27, 91] ++ (mid ++ [109]))).2 =
      [{ kind := .sgr, data := ([27, 91] ++ mid) ++ [109],
         styled := ((applySGRParams mid ⟨false, false, 0⟩).1).styled }] ∧
    (NewAnsiTokenizer.Feed ([27, 91] ++ (mid ++ [109]))).1.sgr =
      (applySGRParams mid ⟨false, false, 0⟩).1 ∧
    (∀ s : List Nat, parseNumber s =
      specDecimal (s.filter fun b => 48 ≤ b && b ≤ 57) % 18446744073709551616) ∧
    (NewAnsiTokenizer.Feed [27, 91, 52, 58, 51, 109]).1.sgr =
      ⟨false, true, 0⟩ ∧
    (AnsiTokenizer.Feed
        { buf := [], state := .ground, prevState := .ground,
          sgr := ⟨false, false, 48⟩, inOSC8 := false }
        [27, 91, 63, 50, 53, 109]).1.sgr = ⟨false, false, 0⟩ := by
  have hloop := feedLoop_csi_full mid hmid hlen
  have hfeed : NewAnsiTokenizer.Feed ([27, 91] ++ (mid ++ [109])) =
      ({ buf := [], state := .ground, prevState := .ground,
         sgr := (applySGRParams mid ⟨false, false, 0⟩).1, inOSC8 := false },
        [{ kind := .sgr, data := ([27, 91] ++ mid) ++ [109],
           styled := ((applySGRParams mid ⟨false, false, 0⟩).1).styled }]) := by
    unfold AnsiTokenizer.Feed
    rw [hloop]
    simp
  refine ⟨by rw [hfeed], by rw [hfeed], parseNumber_char, by decide, by decide⟩

/-- Witness for `c10_csi_m_is_sgr` at the parameter bytes `38;5` (a
truncated extended-color argument list). -/
theorem c10_csi_m_is_sgr_witness :
    (NewAnsiTokenizer.Feed ([27, 91] ++ ([51, 56, 59, 53] ++ [109]))).2 =
      [{ kind := .sgr, data := ([27, 91] ++ [51, 56, 59, 53]) ++ [109],
         styled := ((applySGRParams [51, 56, 59, 53] ⟨false, false, 0⟩).1).styled }] ∧
    (NewAnsiTokenizer.Feed ([27, 91] ++ ([51, 56, 59, 53] ++ [109]))).1.sgr =
      (applySGRParams [51, 56, 59, 53] ⟨false, false, 0⟩).1 := by
  obtain ⟨a, b, _⟩ := c10_csi_m_is_sgr [51, 56, 59, 53] (by decide) (by decide)
  exact ⟨a, b⟩

/-! ## Theorems: no file link without existence (C3) -/

/-- C3: `wrapFilePath` emits an OSC 8 file link only if the resolved path
(home-expanded, absolute as-is, or cwd-joined, then symlink-canonicalized
where possible) passes the memoized existence check, or the retry with a
leading `a/` or `b/` stripped does, or basename resolution is enabled and
the FileIndex returns a non-empty absolute path; in every other case no
replacement is produced (the caller then emits the matched bytes
unchanged). -/
theorem c3_no_emission_without_existence (env : FSEnv) (L : LinkerConf)
    (cache : List (List Char × Bool)) (pre pathPart locSuffix displayText : List Char)
    (h : (wrapFilePath env L cache pre pathPart locSuffix displayText).1.isSome = true) :
    resolvePath env L.cwd pathPart ≠ [] ∧
      ((pathExists env cache (resolvePath env L.cwd pathPart)).1 = true ∨
        (∃ stripped, stripGitDiffPrefix pathPart = some stripped ∧
          resolvePath env L.cwd stripped ≠ [] ∧
          (pathExists env (pathExists env cache (resolvePath env L.cwd pathPart)).2
            (resolvePath env L.cwd stripped)).1 = true) ∨
        (L.resolveBasename = true ∧ FileIndex.Resolve L.index pathPart ≠ [])) := by
  unfold wrapFilePath at h
  by_cases habs : resolvePath env L.cwd pathPart = []
  · rw [if_pos habs] at h
    simp at h
  · rw [if_neg habs] at h
    refine ⟨habs, ?_⟩
    by_cases hex : (pathExists env cache (resolvePath env L.cwd pathPart)).1 = true
    · exact Or.inl hex
    · rw [if_neg hex] at h
      simp only at h
      rcases hstrip : stripGitDiffPrefix pathPart with _ | stripped <;>
        rw [hstrip] at h <;> simp only at h
      · by_cases hrb : L.resolveBasename = true
        · by_cases hres : FileIndex.Resolve L.index pathPart = []
          · simp [hrb, hres] at h
          · exact Or.inr (Or.inr ⟨hrb, hres⟩)
        · rw [Bool.not_eq_true] at hrb
          simp [hrb] at h
      · by_cases hsabs : resolvePath env L.cwd stripped = []
        · by_cases hrb : L.resolveBasename = true
          · by_cases hres : FileIndex.Resolve L.index pathPart = []
            · simp [hsabs, hrb, hres] at h
            · exact Or.inr (Or.inr ⟨hrb, hres⟩)
          · rw [Bool.not_eq_true] at hrb
            simp [hsabs, hrb] at h
        · by_cases hex2 :
              (pathExists env
                (pathExists env cache (resolvePath env L.cwd pathPart)).2
                (resolvePath env L.cwd stripped)).1 = true
          · exact Or.inr (Or.inl ⟨stripped, rfl, hsabs, hex2⟩)
          · rw [Bool.not_eq_true] at hex2
            by_cases hrb : L.resolveBasename = true
            · by_cases hres : FileIndex.Resolve L.index pathPart = []
              · simp [hsabs, hex2, hrb, hres] at h
              · exact Or.inr (Or.inr ⟨hrb, hres⟩)
            · rw [Bool.not_eq_true] at hrb
              simp [hsabs, hex2, hrb] at h

/-- Witness for `c3_no_emission_without_existence`: an environment where
every path exists. -/
theorem c3_no_emission_without_existence_witness :
    let env : FSEnv :=
      { userHomeDir := none, join := fun a b => a ++ '/' :: b,
        evalSymlinks := fun _ => none, stat := fun _ => true }
    let L : LinkerConf :=
      { cwd := "/w".data, hostname := [], scheme := "file".data,
        terminator := [], resolveBasename := false, symbolLinks := false,
        index := ⟨false, []⟩ }
    resolvePath env L.cwd "x.go".data ≠ [] ∧
      ((pathExists env [] (resolvePath env L.cwd "x.go".data)).1 = true ∨
        (∃ stripped, stripGitDiffPrefix "x.go".data = some stripped ∧
          resolvePath env L.cwd stripped ≠ [] ∧
          (pathExists env (pathExists env [] (resolvePath env L.cwd "x.go".data)).2
            (resolvePath env L.cwd stripped)).1 = true) ∨
        (L.resolveBasename = true ∧ FileIndex.Resolve L.index "x.go".data ≠ [])) := by
  exact c3_no_emission_without_existence _ _ [] [] "x.go".data [] [] (by decide)
/-! ## Theorems: file URL shape and suffix normalization (C7) -/

theorem dropFromDash_append (L1 L2 : List Char) (h : ∀ c ∈ L1, c ≠ '-') :
    dropFromDash (L1 ++ '-' :: L2) = some L1 := by
  induction L1 with
  | nil => simp [dropFromDash]
  | cons c rest ih =>
    have hc : c ≠ '-' := h c (List.mem_cons_self c rest)
    have ih' := ih (fun x hx => h x (List.mem_cons_of_mem _ hx))
    simp [dropFromDash, if_neg hc, ih']

theorem dropFromDash_none (l : List Char) (h : ∀ c ∈ l, c ≠ '-') :
    dropFromDash l = none := by
  induction l with
  | nil => rfl
  | cons c rest ih =>
    have hc : c ≠ '-' := h c (List.mem_cons_self c rest)
    simp only [dropFromDash, if_neg hc]
    rw [ih (fun x hx => h x (List.mem_cons_of_mem _ hx))]
    rfl

/-- C7: with scheme `file` the emitted URL is
`file://<hostname><absolute-path>` and is independent of the location
suffix; with any other scheme it is
`<scheme>://file<absolute-path><normalized-suffix>`, where a `:L-L2`
suffix normalizes to `:L:1` while suffixes without a dash are preserved;
and `wrapFile` places the caller's display text (the original matched
bytes, original suffix included) verbatim between the OSC 8 open and
close sequences. -/
theorem c7_scheme_formatting (L : LinkerConf)
    (absPath loc loc2 pre disp L1 L2 : List Char) :
    (L.scheme = "file".data →
      formatFileURL L absPath loc = "file://".data ++ L.hostname ++ absPath ∧
        formatFileURL L absPath loc = formatFileURL L absPath loc2) ∧
    (L.scheme ≠ "file".data →
      formatFileURL L absPath loc =
        L.scheme ++ "://file".data ++ absPath ++ normalizeLocSuffix loc) ∧
    ((∀ c ∈ L1, c ≠ '-') →
      normalizeLocSuffix (':' :: (L1 ++ '-' :: L2)) = (':' :: L1) ++ [':', '1']) ∧
    ((∀ c ∈ loc.drop 1, c ≠ '-') → normalizeLocSuffix loc = loc) ∧
    wrapFile L pre absPath loc disp =
      pre ++ osc8StartSeq ++ formatFileURL L absPath loc ++ stT L ++ disp ++
        osc8StartSeq ++ stT L := by
  refine ⟨?_, ?_, ?_, ?_, ?_⟩
  · intro hs
    exact ⟨by simp [formatFileURL, hs], by simp [formatFileURL, hs]⟩
  · intro hs
    simp [formatFileURL, hs]
  · intro hL1
    simp [normalizeLocSuffix, dropFromDash_append L1 L2 hL1]
  · intro hloc
    match loc with
    | [] => rfl
    | c :: rest =>
      simp only [normalizeLocSuffix]
      rw [dropFromDash_none rest (by simpa using hloc)]
  · simp [wrapFile, osc8Link, List.append_assoc]

/-- Witness for `c7_scheme_formatting` with the `cursor` scheme and the
suffix `:12-24`. -/
theorem c7_scheme_formatting_witness :
    let L : LinkerConf :=
      { cwd := [], hostname := "h".data, scheme := "cursor".data,
        terminator := [], resolveBasename := false, symbolLinks := false,
        index := ⟨false, []⟩ }
    (formatFileURL L "/w/test.go".data ":12-24".data =
        "cursor".data ++ "://file".data ++ "/w/test.go".data ++
          normalizeLocSuffix ":12-24".data) ∧
      normalizeLocSuffix (':' :: ("12".data ++ '-' :: "24".data)) =
        (':' :: "12".data) ++ [':', '1'] ∧
      normalizeLocSuffix ":12:5".data = ":12:5".data := by
  refine ⟨(c7_scheme_formatting _ "/w/test.go".data ":12-24".data
      ":12-24".data [] [] "12".data "24".data).2.1 (by decide),
    (c7_scheme_formatting ⟨[], [], [], [], false, false, ⟨false, []⟩⟩ []
      ":12-24".data ":12-24".data [] [] "12".data "24".data).2.2.1 (by decide),
    (c7_scheme_formatting ⟨[], [], [], [], false, false, ⟨false, []⟩⟩ []
      ":12:5".data [] [] [] [] []).2.2.2.1 (by decide)⟩

/-! ## Theorems: FileIndex.Resolve (C9) -/

theorem pickFold_le (l : List FileInfo) :
    ∀ acc : FileInfo,
      acc.mtime ≤
        (l.foldl (fun newest c => if newest.mtime < c.mtime then c else newest)
          acc).mtime ∧
      ∀ c ∈ l, c.mtime ≤
        (l.foldl (fun newest c => if newest.mtime < c.mtime then c else newest)
          acc).mtime := by
  induction l with
  | nil => intro acc; exact ⟨le_refl _, by simp⟩
  | cons x rest ih =>
    intro acc
    simp only [List.foldl_cons]
    by_cases hx : acc.mtime < x.mtime
    · rw [if_pos hx]
      refine ⟨le_trans (le_of_lt hx) (ih x).1, ?_⟩
      intro c hc
      rcases List.mem_cons.mp hc with hc | hc
      · rw [hc]; exact (ih x).1
      · exact (ih x).2 c hc
    · rw [if_neg hx]
      refine ⟨(ih acc).1, ?_⟩
      intro c hc
      rcases List.mem_cons.mp hc with hc | hc
      · rw [hc]; exact le_trans (Nat.le_of_not_lt hx) (ih acc).1
      · exact (ih acc).2 c hc

theorem pickFold_mem_or (l : List FileInfo) :
    ∀ acc : FileInfo,
      l.foldl (fun newest c => if newest.mtime < c.mtime then c else newest) acc
          = acc ∨
        l.foldl (fun newest c => if newest.mtime < c.mtime then c else newest) acc
          ∈ l := by
  induction l with
  | nil => intro acc; exact Or.inl rfl
  | cons x rest ih =>
    intro acc
    simp only [List.foldl_cons]
    by_cases hx : acc.mtime < x.mtime
    · rw [if_pos hx]
      rcases ih x with h | h
      · exact Or.inr (by rw [h]; exact List.mem_cons_self x rest)
      · exact Or.inr (List.mem_cons_of_mem _ h)
    · rw [if_neg hx]
      rcases ih acc with h | h
      · exact Or.inl h
      · exact Or.inr (List.mem_cons_of_mem _ h)

theorem pickNewest_mem (l : List FileInfo) (h : ∃ c ∈ l, 0 < c.mtime) :
    pickNewest l ∈ l := by
  rcases pickFold_mem_or l ⟨[], 0⟩ with hm | hm
  · obtain ⟨c, hc, hpos⟩ := h
    have hle : c.mtime ≤ (pickNewest l).mtime := (pickFold_le l ⟨[], 0⟩).2 c hc
    have hm' : pickNewest l = ⟨[], 0⟩ := hm
    have h0 : (pickNewest l).mtime = 0 := congrArg FileInfo.mtime hm'
    omega
  · exact hm

theorem pickFold_id (l : List FileInfo) :
    ∀ acc : FileInfo, (∀ c ∈ l, ¬ acc.mtime < c.mtime) →
      l.foldl (fun newest c => if newest.mtime < c.mtime then c else newest) acc
        = acc := by
  induction l with
  | nil => intro acc _; rfl
  | cons x rest ih =>
    intro acc h
    simp only [List.foldl_cons, if_neg (h x (List.mem_cons_self x rest))]
    exact ih acc (fun c hc => h c (List.mem_cons_of_mem _ hc))

/-- C9 counterexample: a ready index with two candidates for `a.txt`, both
carrying the zero mtime; `Resolve` returns the empty string, which is
neither candidate's path, although the claim promises the candidate with
the greatest mtime. -/
theorem c9_counterexample :
    FileIndex.Resolve
        ⟨true, [("a.txt".data, [⟨"/x/a.txt".data, 0⟩, ⟨"/y/a.txt".data, 0⟩])]⟩
        "a.txt".data = [] ∧
      (lookupFiles [("a.txt".data, [⟨"/x/a.txt".data, 0⟩, ⟨"/y/a.txt".data, 0⟩])]
        (filepathBase "a.txt".data)).length = 2 ∧
      ∀ c ∈ lookupFiles
          [("a.txt".data, [⟨"/x/a.txt".data, 0⟩, ⟨"/y/a.txt".data, 0⟩])]
          (filepathBase "a.txt".data),
        FileIndex.Resolve
            ⟨true, [("a.txt".data, [⟨"/x/a.txt".data, 0⟩, ⟨"/y/a.txt".data, 0⟩])]⟩
            "a.txt".data ≠ c.path := by
  decide

theorem Resolve_eq_of_ready (idx : FileIndex) (q : List Char)
    (hr : idx.ready = true) :
    FileIndex.Resolve idx q =
      (if lookupFiles idx.files (filepathBase q) = [] then []
       else
         match (if q.any (· = '/') then
             if (lookupFiles idx.files (filepathBase q)).filter
                 (fun c => ('/' :: q).isSuffixOf c.path) ≠ [] then
               (lookupFiles idx.files (filepathBase q)).filter
                 (fun c => ('/' :: q).isSuffixOf c.path)
             else lookupFiles idx.files (filepathBase q)
           else lookupFiles idx.files (filepathBase q)) with
         | [c] => c.path
         | _ =>
           (pickNewest (if q.any (· = '/') then
             if (lookupFiles idx.files (filepathBase q)).filter
                 (fun c => ('/' :: q).isSuffixOf c.path) ≠ [] then
               (lookupFiles idx.files (filepathBase q)).filter
                 (fun c => ('/' :: q).isSuffixOf c.path)
             else lookupFiles idx.files (filepathBase q)
           else lookupFiles idx.files (filepathBase q))).path) := by
  unfold FileIndex.Resolve
  rw [hr]
  rfl

/-- C9 (amended): `Resolve` returns empty while the index is not ready and
when no entry matches the query's basename; with a `/` in the query the
candidates are filtered to suffix matches, falling back to the full list
when the filter is empty; a single remaining candidate is returned
directly; among several, the fold over the list (seeded with the zero
`FileInfo`) returns a candidate of maximal mtime — deterministically —
except that when every remaining candidate has the zero mtime the empty
string is returned instead (the departure from the original claim forced
by the counterexample). -/
theorem c9_amended (idx : FileIndex) (q : List Char) :
    (idx.ready = false → FileIndex.Resolve idx q = []) ∧
    (idx.ready = true →
      lookupFiles idx.files (filepathBase q) = [] →
      FileIndex.Resolve idx q = []) ∧
    (idx.ready = true →
      ∀ cands0, cands0 = lookupFiles idx.files (filepathBase q) → cands0 ≠ [] →
      ∀ cands, cands =
        (if q.any (· = '/') then
          if cands0.filter (fun c => ('/' :: q).isSuffixOf c.path) ≠ [] then
            cands0.filter (fun c => ('/' :: q).isSuffixOf c.path)
          else cands0
        else cands0) →
      ((∀ c, cands = [c] → FileIndex.Resolve idx q = c.path) ∧
        (2 ≤ cands.length →
          ((∃ c ∈ cands, 0 < c.mtime) →
            FileIndex.Resolve idx q = (pickNewest cands).path ∧
              pickNewest cands ∈ cands ∧
              ∀ c ∈ cands, c.mtime ≤ (pickNewest cands).mtime) ∧
          ((∀ c ∈ cands, c.mtime = 0) → FileIndex.Resolve idx q = [])))) := by
  refine ⟨?_, ?_, ?_⟩
  · intro h
    unfold FileIndex.Resolve
    rw [h]
    rfl
  · intro hr hl
    rw [Resolve_eq_of_ready idx q hr, if_pos hl]
  · intro hr cands0 hc0 hne cands hcands
    subst hc0
    refine ⟨?_, ?_⟩
    · intro c hc
      have hb := hcands.symm.trans hc
      rw [Resolve_eq_of_ready idx q hr, if_neg hne, hb]
    · intro hlen
      obtain ⟨a, b, t, hshape⟩ : ∃ a b t, cands = a :: b :: t := by
        rcases hc : cands with _ | ⟨a, _ | ⟨b, t⟩⟩ <;> rw [hc] at hlen
        · simp at hlen
        · simp at hlen
        · exact ⟨a, b, t, rfl⟩
      have hb := hcands.symm.trans hshape
      have hres2 : FileIndex.Resolve idx q = (pickNewest cands).path := by
        rw [hshape, Resolve_eq_of_ready idx q hr, if_neg hne, hb]
      constructor
      · intro hex
        exact ⟨hres2, pickNewest_mem cands hex,
          fun c hc => (pickFold_le cands ⟨[], 0⟩).2 c hc⟩
      · intro hzero
        have hid : pickNewest cands = ⟨[], 0⟩ :=
          pickFold_id cands ⟨[], 0⟩ (fun c hc => by rw [hzero c hc]; omega)
        rw [hres2, hid]

/-- Witness for `c9_amended` on a ready two-candidate index with distinct
mtimes. -/
theorem c9_amended_witness :
    FileIndex.Resolve
        ⟨true, [("a.txt".data, [⟨"/x/a.txt".data, 3⟩, ⟨"/y/a.txt".data, 7⟩])]⟩
        "a.txt".data =
      (pickNewest [⟨"/x/a.txt".data, 3⟩, ⟨"/y/a.txt".data, 7⟩]).path := by
  have h := ((c9_amended
    ⟨true, [("a.txt".data, [⟨"/x/a.txt".data, 3⟩, ⟨"/y/a.txt".data, 7⟩])]⟩
    "a.txt".data).2.2 rfl
    [⟨"/x/a.txt".data, 3⟩, ⟨"/y/a.txt".data, 7⟩] (by decide) (by decide)
    [⟨"/x/a.txt".data, 3⟩, ⟨"/y/a.txt".data, 7⟩] (by decide)).2
    (by decide)
  exact (h.1 ⟨⟨"/y/a.txt".data, 7⟩, by decide, by decide⟩).1

/-! ## Theorems: the symbol-linking gate (C4) -/

theorem replaceSymbolsF_congr (w1 w2 : Bool → List Char → List Char → List Char)
    (h : ∀ fn d s, 3 ≤ d.length → w1 fn d s = w2 fn d s) :
    ∀ (fuel : Nat) (qn data : List Char),
      replaceSymbolsF w1 fuel qn data = replaceSymbolsF w2 fuel qn data := by
  intro fuel
  induction fuel with
  | zero => intro qn data; cases data <;> rfl
  | succ n ih =>
    intro qn data
    cases data with
    | nil => rfl
    | cons c rest =>
      simp only [replaceSymbolsF]
      by_cases h1 : isWordChar c = true
      · have hno : ¬ (¬ isWordChar c = true) := by simp [h1]
        rw [if_neg hno, if_neg hno]
        by_cases h2 : (List.takeWhile isWordChar (c :: rest)).length ≥ 3
        · rw [if_pos h2, if_pos h2, h _ _ _ h2, ih]
        · rw [if_neg h2, if_neg h2, ih]
      · have hyes : (¬ isWordChar c = true) := by simp [h1]
        rw [if_pos hyes, if_pos hyes]
        by_cases h3 : c = '.' ∧ qn ≠ [] ∧
            ((rest.head?.map isWordChar).getD false) = true
        · rw [if_pos h3, if_pos h3, ih]
        · rw [if_neg h3, if_neg h3, ih]

theorem processMatches_symFn (env : FSEnv) (L : LinkerConf)
    (f g : List Char → List Char) (data : List Char) (styled : Bool)
    (hgate : (L.symbolLinks && styled) = false) :
    ∀ (ms : List MatchRec) (last : Nat) (cache : List (List Char × Bool)),
      processMatches env L f data styled ms last cache =
        processMatches env L g data styled ms last cache := by
  intro ms
  induction ms with
  | nil =>
    intro last cache
    simp only [processMatches, hgate, Bool.false_eq_true, if_false]
  | cons m rest ih =>
    intro last cache
    simp only [processMatches, hgate, Bool.false_eq_true, if_false]
    rcases m.g1 with _ | ⟨s, e⟩
    · rcases m.g2 with _ | ⟨s, e⟩
      · rcases m.g3 with _ | ⟨ps, pe⟩
        · simp only [ih]
        · rcases hr : (wrapFilePath env L cache (sliceL data m.fullStart ps)
            (sliceL data ps pe)
            (match m.g4 with
              | some (ls, le) => sliceL data ls le
              | none => [])
            (sliceL data ps pe ++
              match m.g4 with
              | some (ls, le) => sliceL data ls le
              | none => [])).1 with _ | repl
          · simp only [hr, ih]
          · simp only [hr, ih]
      · simp only [ih]
    · simp only [ih]

theorem processTextWithState_symFn (env : FSEnv) (L : LinkerConf)
    (f g : List Char → List Char) (ms : List MatchRec) (data : List Char)
    (styled inOSC8 : Bool) (cache : List (List Char × Bool))
    (hgate : (L.symbolLinks && styled) = false) :
    processTextWithState env L f ms data styled inOSC8 cache =
      processTextWithState env L g ms data styled inOSC8 cache := by
  unfold processTextWithState
  rw [hgate]
  split_ifs with hosc hms hf
  · rfl
  · exact hf.elim
  · rfl
  · exact processMatches_symFn env L f g data styled hgate ms 0 cache

theorem parseArgs_symbolLinks (env : ArgEnvR) (args : List (List Char))
    (opts : OptsModel) (rest : List (List Char))
    (h : parseArgs env args = some (opts, rest))
    (hsym : opts.symbolLinks = true) :
    (if opts.scheme = [] then "file".data else opts.scheme) ≠ "file".data := by
  unfold parseArgs at h
  rcases hloop : parseArgsLoop args (initialOpts env)
      (decide (env.envNoSymbolLinks = "1".data)) with _ | ⟨o, noSym, cmdArgs⟩ <;>
    rw [hloop] at h
  · exact absurd h (by simp)
  · simp only [Option.some.injEq, Prod.mk.injEq] at h
    obtain ⟨hopts, hrest⟩ := h
    subst hopts
    simp only [Bool.and_eq_true, decide_eq_true_eq] at hsym
    exact hsym.1

/-- C4: a symbol link can be produced only when symbol linking is enabled
and the rewriter's styled flag is true at the point the text is consumed —
with the gate off, `processTextWithState` output does not depend on the
symbol rewriter at all; `parseArgs` enables symbol linking only when the
effective scheme is not `file`; and the symbol scan invokes the wrapper
only on word runs of length at least 3, so shorter runs are never
symbol-linked. -/
theorem c4_symbol_gate :
    (∀ (env : FSEnv) (L : LinkerConf) (f g : List Char → List Char)
        (ms : List MatchRec) (data : List Char) (styled inOSC8 : Bool)
        (cache : List (List Char × Bool)),
      (L.symbolLinks && styled) = false →
      processTextWithState env L f ms data styled inOSC8 cache =
        processTextWithState env L g ms data styled inOSC8 cache) ∧
    (∀ (env : ArgEnvR) (args : List (List Char)) (opts : OptsModel)
        (rest : List (List Char)),
      parseArgs env args = some (opts, rest) → opts.symbolLinks = true →
      (if opts.scheme = [] then "file".data else opts.scheme) ≠ "file".data) ∧
    (∀ w1 w2 : Bool → List Char → List Char → List Char,
      (∀ fn d s, 3 ≤ d.length → w1 fn d s = w2 fn d s) →
      ∀ (fuel : Nat) (qn data : List Char),
        replaceSymbolsF w1 fuel qn data = replaceSymbolsF w2 fuel qn data) :=
  ⟨fun env L f g ms data styled inOSC8 cache hgate =>
      processTextWithState_symFn env L f g ms data styled inOSC8 cache hgate,
    fun env args opts rest h hsym => parseArgs_symbolLinks env args opts rest h hsym,
    replaceSymbolsF_congr⟩

/-- Witness for `c4_symbol_gate`: with the gate off, two different symbol
rewriters give the same output on a concrete text; a concrete `parseArgs`
run with `--scheme=cursor` yields symbol links with a non-file scheme; and
two wrappers agreeing on long words agree on `ab cd`. -/
theorem c4_symbol_gate_witness :
    (processTextWithState
        { userHomeDir := none, join := fun a b => a ++ '/' :: b,
          evalSymlinks := fun _ => none, stat := fun _ => false }
        { cwd := [], hostname := [], scheme := "file".data, terminator := [],
          resolveBasename := false, symbolLinks := false, index := ⟨false, []⟩ }
        (fun _ => "X".data) [] "hello".data false false [] =
      processTextWithState
        { userHomeDir := none, join := fun a b => a ++ '/' :: b,
          evalSymlinks := fun _ => none, stat := fun _ => false }
        { cwd := [], hostname := [], scheme := "file".data, terminator := [],
          resolveBasename := false, symbolLinks := false, index := ⟨false, []⟩ }
        (fun x => x) [] "hello".data false false []) ∧
    (∀ opts : OptsModel, ∀ rest : List (List Char),
      parseArgs ⟨[], [], [], [], [], []⟩ ["--scheme=cursor".data] =
          some (opts, rest) →
        opts.symbolLinks = true →
        (if opts.scheme = [] then "file".data else opts.scheme) ≠
          "file".data) ∧
    replaceSymbolsF (fun _ _ _ => "A".data) 5 [] "ab cd".data =
      replaceSymbolsF (fun _ _ _ => "B".data) 5 [] "ab cd".data := by
  refine ⟨c4_symbol_gate.1 _ _ _ _ _ _ _ _ _ (by decide),
    fun opts rest h hs => c4_symbol_gate.2.1 _ _ opts rest h hs,
    c4_symbol_gate.2.2 _ _ (fun fn d s hd => rfl) 5 [] "ab cd".data⟩

/-! ## Theorems: the FileIndex initial scan (C6) -/

theorem lookup_addToKey (files : List (List Char × List FileInfo))
    (k k' : List Char) (v : FileInfo) :
    lookupFiles (addToKey files k v) k' =
      if k' = k then lookupFiles files k' ++ [v] else lookupFiles files k' := by
  induction files with
  | nil =>
    by_cases h : k' = k
    · simp [addToKey, lookupFiles, h]
    · simp [addToKey, lookupFiles, h, Ne.symm h]
  | cons e rest ih =>
    obtain ⟨k0, vs⟩ := e
    simp only [addToKey]
    by_cases h0 : k0 = k
    · rw [if_pos h0]
      by_cases h' : k' = k0
      · rw [if_pos (h'.trans h0)]
        simp [lookupFiles, h']
      · rw [if_neg (fun hc => h' (hc.trans h0.symm))]
        simp [lookupFiles, Ne.symm h']
    · rw [if_neg h0]
      have hfind : ∀ (l : List (List Char × List FileInfo)) (ws : List FileInfo),
          k' ≠ k0 →
          lookupFiles ((k0, ws) :: l) k' = lookupFiles l k' := by
        intro l ws hne
        unfold lookupFiles
        rw [List.find?_cons_of_neg _ (by simpa using Ne.symm hne)]
      by_cases h' : k' = k0
      · rw [if_neg (fun hc => h0 (h'.symm.trans hc))]
        simp [lookupFiles, h']
      · rw [hfind _ _ h', hfind _ _ h', ih]

theorem lookup_buildFold (entries : List (List Char × Nat)) :
    ∀ (acc : List (List Char × List FileInfo)) (k : List Char),
      lookupFiles
        (entries.foldl
          (fun fs e => addToKey fs (filepathBase e.1) ⟨e.1, e.2⟩) acc) k =
      lookupFiles acc k ++
        (entries.filter (fun e => filepathBase e.1 = k)).map
          (fun e => ⟨e.1, e.2⟩) := by
  induction entries with
  | nil => intro acc k; simp
  | cons e rest ih =>
    intro acc k
    simp only [List.foldl_cons]
    rw [ih, lookup_addToKey]
    by_cases hk : k = filepathBase e.1
    · rw [if_pos hk]
      rw [List.filter_cons_of_pos (by simp [hk.symm])]
      simp
    · rw [if_neg hk]
      rw [List.filter_cons_of_neg (by simp; exact fun hc => hk hc.symm)]

theorem lookup_buildIndex (entries : List (List Char × Nat)) (k : List Char) :
    lookupFiles (buildIndex entries) k =
      (entries.filter (fun e => filepathBase e.1 = k)).map
        (fun e => ⟨e.1, e.2⟩) := by
  unfold buildIndex
  rw [lookup_buildFold]
  simp [lookupFiles]

mutual
theorem walkFiles_spec (conf : FIConf) (parent : List Char) (t : FsTree) :
    walkFiles conf parent t =
      ((allFiles parent t).filter
        (fun e => e.2.2.all (fun d => !(isIgnoredDir conf d)))).map
        (fun e => (e.1, e.2.1)) := by
  cases t with
  | file name mtime => simp [walkFiles, allFiles]
  | dir name children =>
    rw [walkFiles, allFiles, List.filter_map]
    by_cases hig : isIgnoredDir conf (pathJoin parent name) = true
    · rw [if_pos hig]
      rw [List.filter_congr (q := fun _ => false)
        (by intro e he; simp [Function.comp, hig])]
      simp
    · rw [if_neg hig]
      have hfalse : isIgnoredDir conf (pathJoin parent name) = false := by
        simpa using hig
      rw [List.filter_congr
          (q := fun e => e.2.2.all (fun d => !(isIgnoredDir conf d)))
        (by intro e he
            simp [Function.comp, List.all_cons, hfalse])]
      rw [walkForest_spec conf (pathJoin parent name) children]
      rw [List.map_map]
      rfl
theorem walkForest_spec (conf : FIConf) (parent : List Char) (f : FsForest) :
    walkForest conf parent f =
      ((allForest parent f).filter
        (fun e => e.2.2.all (fun d => !(isIgnoredDir conf d)))).map
        (fun e => (e.1, e.2.1)) := by
  cases f with
  | leaf => rfl
  | cons t ts =>
    rw [walkForest, allForest, List.filter_append, List.map_append,
      walkFiles_spec conf parent t, walkForest_spec conf parent ts]
end

/-- C6: when the working directory is a git work tree, the initial scan
obtains the git-ignored directory set by running
`git ls-files -oi --exclude-standard --directory` and turning each
non-empty right-trimmed output line into an absolute directory (empty on
git failure); the walk over the (symlink-free) tree records exactly the
regular files none of whose enclosing directories is skipped, as
(path, mtime) pairs keyed by basename in the index; and a directory is
skipped exactly when its basename is in the configured exclude list or
its absolute path is in the git-ignored set. -/
theorem c6_initial_scan :
    gitLsFilesArgs = ["git".data, "ls-files".data, "-oi".data,
      "--exclude-standard".data, "--directory".data] ∧
    (∀ (env : GitEnvR) (cwd : List Char), env.run gitLsFilesArgs = none →
      loadGitIgnoredDirs env cwd = []) ∧
    (∀ (env : GitEnvR) (cwd out d : List Char),
      env.run gitLsFilesArgs = some out →
      (d ∈ loadGitIgnoredDirs env cwd ↔
        ∃ line ∈ splitOnChar '\n' out,
          trimRightCutset line ['/', '\r', '\n', ' '] ≠ [] ∧
          d = pathJoin cwd (trimRightCutset line ['/', '\r', '\n', ' ']))) ∧
    (∀ (conf : FIConf) (p : List Char),
      isIgnoredDir conf p = true ↔
        (filepathBase p ∈ conf.excludeSet ∨ p ∈ conf.ignoredDirs)) ∧
    (∀ (conf : FIConf) (parent : List Char) (t : FsTree),
      walkFiles conf parent t =
        ((allFiles parent t).filter
          (fun e => e.2.2.all (fun d => !(isIgnoredDir conf d)))).map
          (fun e => (e.1, e.2.1))) ∧
    (∀ (entries : List (List Char × Nat)) (k : List Char),
      lookupFiles (buildIndex entries) k =
        (entries.filter (fun e => filepathBase e.1 = k)).map
          (fun e => ⟨e.1, e.2⟩)) := by
  refine ⟨rfl, ?_, ?_, ?_, walkFiles_spec, lookup_buildIndex⟩
  · intro env cwd h
    unfold loadGitIgnoredDirs
    rw [h]
  · intro env cwd out d h
    unfold loadGitIgnoredDirs
    rw [h]
    rw [List.mem_filterMap]
    constructor
    · rintro ⟨line, hline, hsome⟩
      by_cases hnil : trimRightCutset line ['/', '\r', '\n', ' '] = []
      · rw [if_pos hnil] at hsome
        exact absurd hsome (by simp)
      · rw [if_neg hnil] at hsome
        exact ⟨line, hline, hnil, by
          have := Option.some.inj hsome
          exact this.symm⟩
    · rintro ⟨line, hline, hnil, hd⟩
      exact ⟨line, hline, by rw [if_neg hnil, hd]⟩
  · intro conf p
    simp [isIgnoredDir]

/-- Witness for `c6_initial_scan`: a concrete two-line git output and a
concrete skip query. -/
theorem c6_initial_scan_witness :
    (loadGitIgnoredDirs ⟨fun _ => none⟩ "/w".data = []) ∧
      ("/w/build".data ∈
          loadGitIgnoredDirs ⟨fun _ => some "build/\nnode_modules/\n".data⟩
            "/w".data ↔
        ∃ line ∈ splitOnChar '\n' "build/\nnode_modules/\n".data,
          trimRightCutset line ['/', '\r', '\n', ' '] ≠ [] ∧
          "/w/build".data =
            pathJoin "/w".data
              (trimRightCutset line ['/', '\r', '\n', ' '])) ∧
      (isIgnoredDir ⟨["vendor".data], []⟩ "/w/vendor".data = true ↔
        (filepathBase "/w/vendor".data ∈ [("vendor".data : List Char)] ∨
          "/w/vendor".data ∈ ([] : List (List Char)))) := by
  refine ⟨c6_initial_scan.2.1 ⟨fun _ => none⟩ "/w".data rfl,
    c6_initial_scan.2.2.1 ⟨fun _ => some "build/\nnode_modules/\n".data⟩
      "/w".data "build/\nnode_modules/\n".data "/w/build".data rfl,
    c6_initial_scan.2.2.2.1 ⟨["vendor".data], []⟩ "/w/vendor".data⟩

/-! ## Theorems: passthrough of well-formed OSC 8 input (C2) -/

theorem feedLoop_ground_accum (P : List Nat) :
    ∀ t : AnsiTokenizer, t.state = .ground →
      (∀ b ∈ P, b ≠ 27) →
      t.buf.length + P.length ≤ 4096 →
      feedLoop t P = ({ t with buf := t.buf ++ P }, []) := by
  induction P with
  | nil =>
    intro t ht _ _
    simp [feedLoop]
  | cons b rest ih =>
    intro t ht hb hlen
    have hbb := hb b (List.mem_cons_self b rest)
    have hstep : stepByte t b = ({ t with buf := t.buf ++ [b] }, []) := by
      rcases t with ⟨buf, st, prev, sgr, in8⟩
      simp only [AnsiTokenizer.state] at ht
      subst ht
      simp only [stepByte]
      rw [if_neg hbb]
    have hcap : capCheck { t with buf := t.buf ++ [b] } =
        ({ t with buf := t.buf ++ [b] }, []) := by
      simp only [capCheck]
      rw [if_neg (by
        simp only [List.length_append, List.length_cons, List.length_nil]
        simp only [List.length_cons] at hlen
        simp [maxBufferSize]
        omega)]
    show (let r1 := feedByte t b
      let r2 := feedLoop r1.1 rest
      (r2.1, r1.2 ++ r2.2)) = _
    simp only [feedByte, hstep, hcap]
    rw [ih { t with buf := t.buf ++ [b] } ht
        (fun x hx => hb x (List.mem_cons_of_mem _ hx))
        (by simp only [List.length_append, List.length_cons, List.length_nil]
            simp only [List.length_cons] at hlen
            omega)]
    simp

theorem feedLoop_osc_accum (P : List Nat) :
    ∀ t : AnsiTokenizer, t.state = .oscS →
      (∀ b ∈ P, b ≠ 7 ∧ b ≠ 27) →
      t.buf.length + P.length ≤ 4096 →
      feedLoop t P = ({ t with buf := t.buf ++ P }, []) := by
  induction P with
  | nil =>
    intro t ht _ _
    simp [feedLoop]
  | cons b rest ih =>
    intro t ht hb hlen
    have hbb := hb b (List.mem_cons_self b rest)
    have hstep : stepByte t b = ({ t with buf := t.buf ++ [b] }, []) := by
      rcases t with ⟨buf, st, prev, sgr, in8⟩
      simp only [AnsiTokenizer.state] at ht
      subst ht
      simp only [stepByte]
      rw [if_neg hbb.1, if_neg hbb.2]
    have hcap : capCheck { t with buf := t.buf ++ [b] } =
        ({ t with buf := t.buf ++ [b] }, []) := by
      simp only [capCheck]
      rw [if_neg (by
        simp only [List.length_append, List.length_cons, List.length_nil]
        simp only [List.length_cons] at hlen
        simp [maxBufferSize]
        omega)]
    show (let r1 := feedByte t b
      let r2 := feedLoop r1.1 rest
      (r2.1, r1.2 ++ r2.2)) = _
    simp only [feedByte, hstep, hcap]
    rw [ih { t with buf := t.buf ++ [b] } ht
        (fun x hx => hb x (List.mem_cons_of_mem _ hx))
        (by simp only [List.length_append, List.length_cons, List.length_nil]
            simp only [List.length_cons] at hlen
            omega)]
    simp

theorem feedLoop_cons_silent (t t' : AnsiTokenizer) (b : Nat) (rest : List Nat)
    (h : feedByte t b = (t', [])) :
    feedLoop t (b :: rest) = feedLoop t' rest := by
  show (let r1 := feedByte t b
    let r2 := feedLoop r1.1 rest
    (r2.1, r1.2 ++ r2.2)) = _
  simp [h]

theorem extractOSCData_bel (rest2 : List Nat) :
    extractOSCData (27 :: 93 :: 56 :: (rest2 ++ [7])) = 56 :: rest2 := by
  have hdata : 27 :: 93 :: 56 :: (rest2 ++ [7]) =
      (27 :: 93 :: 56 :: rest2) ++ [7] := by simp
  have hget2 : ((27 :: 93 :: 56 :: rest2) ++ [7]).get? 2 = some 56 := by
    rw [List.get?_append (by simp)]
    rfl
  have hlast : ((27 :: 93 :: 56 :: rest2) ++ [7]).getLast? = some 7 :=
    List.getLast?_concat _
  have hc1 : ¬ (((27 :: 93 :: 56 :: rest2) ++ [7]).length < 2) := by
    simp only [List.length_append, List.length_cons, List.length_nil]
    omega
  have hc2 : ¬ (((27 :: 93 :: 56 :: rest2) ++ [7]).length > 2 ∧
      ((27 :: 93 :: 56 :: rest2) ++ [7]).get? 2 = some 59) := by
    rw [hget2]
    simp
  have hc3 : ((27 :: 93 :: 56 :: rest2) ++ [7]).length > 0 ∧
      ((27 :: 93 :: 56 :: rest2) ++ [7]).getLast? = some 7 :=
    ⟨by simp, hlast⟩
  have hc4 : ¬ ((2 : Nat) ≥ ((27 :: 93 :: 56 :: rest2) ++ [7]).length - 1) := by
    simp only [List.length_append, List.length_cons, List.length_nil]
    omega
  unfold extractOSCData
  rw [hdata, if_neg hc1, if_neg hc2, if_pos hc3, if_neg hc4]
  have htake : (((27 :: 93 :: 56 :: rest2) ++ [7]).take
      (((27 :: 93 :: 56 :: rest2) ++ [7]).length - 1)) = 27 :: 93 :: 56 :: rest2 := by
    have hl : ((27 :: 93 :: 56 :: rest2) ++ [7]).length - 1 =
        (27 :: 93 :: 56 :: rest2).length := by simp
    rw [hl, List.take_left]
  rw [htake]
  rfl

theorem extractOSCData_st (rest2 : List Nat) :
    extractOSCData (27 :: 93 :: 56 :: (rest2 ++ [27, 92])) = 56 :: rest2 := by
  have hdata : 27 :: 93 :: 56 :: (rest2 ++ [27, 92]) =
      (27 :: 93 :: 56 :: rest2) ++ [27, 92] := by simp
  have hget2 : ((27 :: 93 :: 56 :: rest2) ++ [27, 92]).get? 2 = some 56 := by
    rw [List.get?_append (by simp)]
    rfl
  have hlast : ((27 :: 93 :: 56 :: rest2) ++ [27, 92]).getLast? = some 92 := by
    have h : (27 :: 93 :: 56 :: rest2) ++ [27, 92] =
        ((27 :: 93 :: 56 :: rest2) ++ [27]) ++ [92] := by simp
    rw [h]
    exact List.getLast?_concat _
  have hlen : ((27 :: 93 :: 56 :: rest2) ++ [27, 92]).length =
      rest2.length + 5 := by simp
  have hget27 : ((27 :: 93 :: 56 :: rest2) ++ [27, 92]).get?
      (((27 :: 93 :: 56 :: rest2) ++ [27, 92]).length - 2) = some 27 := by
    rw [hlen]
    rw [List.get?_append_right (by simp)]
    simp
  have hc1 : ¬ (((27 :: 93 :: 56 :: rest2) ++ [27, 92]).length < 2) := by
    rw [hlen]
    omega
  have hc2 : ¬ (((27 :: 93 :: 56 :: rest2) ++ [27, 92]).length > 2 ∧
      ((27 :: 93 :: 56 :: rest2) ++ [27, 92]).get? 2 = some 59) := by
    rw [hget2]
    simp
  have hc3 : ¬ (((27 :: 93 :: 56 :: rest2) ++ [27, 92]).length > 0 ∧
      ((27 :: 93 :: 56 :: rest2) ++ [27, 92]).getLast? = some 7) := by
    rw [hlast]
    simp
  have hc4 : ((27 :: 93 :: 56 :: rest2) ++ [27, 92]).length ≥ 2 ∧
      ((27 :: 93 :: 56 :: rest2) ++ [27, 92]).get?
        (((27 :: 93 :: 56 :: rest2) ++ [27, 92]).length - 2) = some 27 ∧
      ((27 :: 93 :: 56 :: rest2) ++ [27, 92]).getLast? = some 92 :=
    ⟨by rw [hlen]; omega, hget27, hlast⟩
  have hc5 : ¬ ((2 : Nat) ≥ ((27 :: 93 :: 56 :: rest2) ++ [27, 92]).length - 2) := by
    rw [hlen]
    omega
  unfold extractOSCData
  rw [hdata, if_neg hc1, if_neg hc2, if_neg hc3, if_pos hc4, if_neg hc5]
  have htake : (((27 :: 93 :: 56 :: rest2) ++ [27, 92]).take
      (((27 :: 93 :: 56 :: rest2) ++ [27, 92]).length - 2)) =
      27 :: 93 :: 56 :: rest2 := by
    have hl : ((27 :: 93 :: 56 :: rest2) ++ [27, 92]).length - 2 =
        (27 :: 93 :: 56 :: rest2).length := by simp
    rw [hl, List.take_left]
  rw [htake]
  rfl

theorem dropWhile_ne59 (params uri : List Nat) (hp : ∀ b ∈ params, b ≠ 59) :
    (params ++ 59 :: uri).dropWhile (· ≠ 59) = 59 :: uri := by
  induction params with
  | nil => simp [List.dropWhile]
  | cons p ps ih =>
    have hpne := hp p (List.mem_cons_self p ps)
    simp only [List.cons_append, List.dropWhile_cons]
    rw [if_pos (by simpa using hpne)]
    exact ih (fun x hx => hp x (List.mem_cons_of_mem _ hx))

theorem parseOSC8_open (params uri : List Nat) (hp : ∀ b ∈ params, b ≠ 59)
    (hu : uri ≠ []) :
    parseOSC8 (56 :: 59 :: (params ++ 59 :: uri)) = some false := by
  unfold parseOSC8
  rw [if_pos (by simp)]
  have hdrop : (56 :: 59 :: (params ++ 59 :: uri)).drop 2 = params ++ 59 :: uri := rfl
  rw [hdrop]
  rw [if_pos (by
    apply List.any_eq_true.mpr
    exact ⟨59, by simp, by simp⟩)]
  rw [dropWhile_ne59 params uri hp]
  simp [List.length_eq_zero, hu]

theorem capCheck_small (t : AnsiTokenizer) (h : t.buf.length ≤ 4096) :
    capCheck t = (t, []) := by
  have hc : ¬ (t.buf.length > maxBufferSize) := by
    simp only [maxBufferSize]
    omega
  simp only [capCheck]
  rw [if_neg hc]

theorem feedByte_parts (t t1 t2 : AnsiTokenizer) (b : Nat)
    (toks1 toks2 : List Token)
    (h1 : stepByte t b = (t1, toks1)) (h2 : capCheck t1 = (t2, toks2)) :
    feedByte t b = (t2, toks1 ++ toks2) := by
  simp [feedByte, h1, h2]

theorem feedLoop_singleton (t t' : AnsiTokenizer) (b : Nat) (toks : List Token)
    (h : feedByte t b = (t', toks)) :
    feedLoop t [b] = (t', toks) := by
  show (let r1 := feedByte t b
    let r2 := feedLoop r1.1 []
    (r2.1, r1.2 ++ r2.2)) = _
  simp [h, feedLoop]

theorem stepByte_ground_esc (t : AnsiTokenizer) (ht : t.state = .ground) :
    stepByte t 27 = ({ t with buf := [27], state := .escS },
      if t.buf = [] then [] else [{ kind := .text, data := t.buf : Token }]) := by
  rcases t with ⟨buf, st, prev, sgr, in8⟩
  simp only [AnsiTokenizer.state] at ht
  subst ht
  by_cases h : buf = [] <;> simp [stepByte, h]

theorem stepByte_esc_osc (t : AnsiTokenizer) (ht : t.state = .escS) :
    stepByte t 93 = ({ t with buf := t.buf ++ [93], state := .oscS }, []) := by
  rcases t with ⟨buf, st, prev, sgr, in8⟩
  simp only [AnsiTokenizer.state] at ht
  subst ht
  simp [stepByte]

theorem stepByte_osc_bel (t : AnsiTokenizer) (e : Bool) (ht : t.state = .oscS)
    (hparse : parseOSC8 (extractOSCData (t.buf ++ [7])) = some e) :
    stepByte t 7 = ({ t with buf := [], state := .ground, inOSC8 := !e },
      [{ kind := .osc8, data := t.buf ++ [7], isEnd := e }]) := by
  rcases t with ⟨buf, st, prev, sgr, in8⟩
  simp only [AnsiTokenizer.state] at ht
  simp only [AnsiTokenizer.buf] at hparse
  subst ht
  simp [stepByte, emitOSC, hparse]

theorem stepByte_osc_esc (t : AnsiTokenizer) (ht : t.state = .oscS) :
    stepByte t 27 =
      ({ t with buf := t.buf ++ [27], prevState := .oscS, state := .stCandidate },
        []) := by
  rcases t with ⟨buf, st, prev, sgr, in8⟩
  simp only [AnsiTokenizer.state] at ht
  subst ht
  simp [stepByte]

theorem stepByte_st_emit (t : AnsiTokenizer) (e : Bool)
    (ht : t.state = .stCandidate) (hprev : t.prevState = .oscS)
    (hparse : parseOSC8 (extractOSCData (t.buf ++ [92])) = some e) :
    stepByte t 92 = ({ t with buf := [], state := .ground, inOSC8 := !e },
      [{ kind := .osc8, data := t.buf ++ [92], isEnd := e }]) := by
  rcases t with ⟨buf, st, prev, sgr, in8⟩
  simp only [AnsiTokenizer.state] at ht
  simp only [AnsiTokenizer.prevState] at hprev
  simp only [AnsiTokenizer.buf] at hparse
  subst ht
  subst hprev
  simp [stepByte, emitOSC, hparse]

theorem c2aux_open (l : OSC8Link) (hwf : WFLink l) (t : AnsiTokenizer)
    (ht : t.state = .ground) (hbuf : t.buf = []) :
    feedLoop t (renderOpen l) =
      ({ t with buf := [], state := .ground, prevState := if l.useBel then t.prevState else .oscS, inOSC8 := true },
        [{ kind := .osc8, data := renderOpen l, isEnd := false }]) := by
  obtain ⟨huri, hparams, huriB, hinner, hlen, hin2⟩ := hwf
  have hlen' : l.params.length + l.uri.length + 5 + (oscTerm l.useBel).length ≤
      4096 := by
    have h := hlen
    simp only [renderOpen, List.length_append, List.length_cons,
      List.length_nil] at h
    omega
  have hsplit : renderOpen l =
      27 :: (93 :: ((56 :: 59 :: (l.params ++ 59 :: l.uri)) ++
        oscTerm l.useBel)) := by
    simp [renderOpen]
  have hfb1 : feedByte t 27 = ({ t with buf := [27], state := .escS }, []) := by
    have h1 := stepByte_ground_esc t ht
    rw [hbuf] at h1
    simp only [if_pos rfl] at h1
    exact feedByte_parts _ _ _ _ _ _ h1 (capCheck_small _ (by simp))
  have hfb2 : feedByte ({ t with buf := [27], state := .escS }) 93 =
      ({ t with buf := [27, 93], state := .oscS }, []) := by
    have h1 : stepByte ({ t with buf := [27], state := .escS }) 93 =
        (({ t with buf := [27, 93], state := .oscS } : AnsiTokenizer), []) :=
      stepByte_esc_osc _ rfl
    exact feedByte_parts _ _ _ _ _ _ h1 (capCheck_small _ (by simp))
  have hpayb : ∀ b ∈ 56 :: 59 :: (l.params ++ 59 :: l.uri),
      b ≠ 7 ∧ b ≠ 27 := by
    intro b hbmem
    rcases List.mem_cons.mp hbmem with rfl | hbmem
    · exact ⟨by decide, by decide⟩
    rcases List.mem_cons.mp hbmem with rfl | hbmem
    · exact ⟨by decide, by decide⟩
    rcases List.mem_append.mp hbmem with hmem | hmem
    · exact ⟨(hparams b hmem).2.2, (hparams b hmem).2.1⟩
    rcases List.mem_cons.mp hmem with rfl | hmem
    · exact ⟨by decide, by decide⟩
    · exact ⟨(huriB b hmem).2, (huriB b hmem).1⟩
  have hacc : feedLoop ({ t with buf := [27, 93], state := .oscS })
      (56 :: 59 :: (l.params ++ 59 :: l.uri)) =
      (({ t with buf := 27 :: 93 :: 56 :: 59 :: (l.params ++ 59 :: l.uri), state := .oscS } : AnsiTokenizer), []) :=
    feedLoop_osc_accum _ _ rfl hpayb (by
      show ([27, 93] : List Nat).length +
        (56 :: 59 :: (l.params ++ 59 :: l.uri)).length ≤ 4096
      simp only [List.length_cons, List.length_append, List.length_nil]
      omega)
  rw [hsplit, feedLoop_cons_silent _ _ _ _ hfb1, feedLoop_cons_silent _ _ _ _ hfb2,
    feedLoop_append]
  simp only [hacc]
  cases hub : l.useBel with
  | true =>
    have hparse : parseOSC8 (extractOSCData
        ((27 :: 93 :: 56 :: 59 :: (l.params ++ 59 :: l.uri)) ++ [7])) =
        some false := by
      have h1 : (27 :: 93 :: 56 :: 59 :: (l.params ++ 59 :: l.uri)) ++ [7] =
          27 :: 93 :: 56 :: ((59 :: (l.params ++ 59 :: l.uri)) ++ [7]) := by
        simp
      rw [h1, extractOSCData_bel,
        parseOSC8_open l.params l.uri (fun b hb => (hparams b hb).1) huri]
    have hstep : stepByte ({ t with buf := 27 :: 93 :: 56 :: 59 :: (l.params ++ 59 :: l.uri), state := .oscS }) 7 =
        (({ t with buf := [], state := .ground, inOSC8 := true } : AnsiTokenizer),
          [{ kind := .osc8, data := (27 :: 93 :: 56 :: 59 :: (l.params ++ 59 :: l.uri)) ++ [7], isEnd := false }]) :=
      stepByte_osc_bel _ false rfl hparse
    have hfb : feedByte ({ t with buf := 27 :: 93 :: 56 :: 59 :: (l.params ++ 59 :: l.uri), state := .oscS }) 7 =
        (({ t with buf := [], state := .ground, inOSC8 := true } : AnsiTokenizer),
          [{ kind := .osc8, data := (27 :: 93 :: 56 :: 59 :: (l.params ++ 59 :: l.uri)) ++ [7], isEnd := false }]) := by
      have h2 := feedByte_parts _ _ _ _ _ _ hstep (capCheck_small _ (by simp))
      simpa using h2
    rw [show oscTerm true = [7] from rfl, feedLoop_singleton _ _ _ _ hfb]
    simp
  | false =>
    have hparse : parseOSC8 (extractOSCData
        (((27 :: 93 :: 56 :: 59 :: (l.params ++ 59 :: l.uri)) ++ [27]) ++
          [92])) = some false := by
      have h1 : ((27 :: 93 :: 56 :: 59 :: (l.params ++ 59 :: l.uri)) ++ [27]) ++
          [92] =
          27 :: 93 :: 56 :: ((59 :: (l.params ++ 59 :: l.uri)) ++ [27, 92]) := by
        simp
      rw [h1, extractOSCData_st,
        parseOSC8_open l.params l.uri (fun b hb => (hparams b hb).1) huri]
    have hstep27 : stepByte ({ t with buf := 27 :: 93 :: 56 :: 59 :: (l.params ++ 59 :: l.uri), state := .oscS }) 27 =
        (({ t with buf := (27 :: 93 :: 56 :: 59 :: (l.params ++ 59 :: l.uri)) ++ [27], state := .stCandidate, prevState := .oscS } : AnsiTokenizer),
          []) :=
      stepByte_osc_esc _ rfl
    have hfb27 : feedByte ({ t with buf := 27 :: 93 :: 56 :: 59 :: (l.params ++ 59 :: l.uri), state := .oscS }) 27 =
        (({ t with buf := (27 :: 93 :: 56 :: 59 :: (l.params ++ 59 :: l.uri)) ++ [27], state := .stCandidate, prevState := .oscS } : AnsiTokenizer),
          []) := by
      have h2 := feedByte_parts _ _ _ _ _ _ hstep27 (capCheck_small _ (by
        show ((27 :: 93 :: 56 :: 59 :: (l.params ++ 59 :: l.uri)) ++
          [27]).length ≤ 4096
        simp only [List.length_cons, List.length_append, List.length_nil]
        rw [hub] at hlen'
        simp only [oscTerm, Bool.false_eq_true, if_false, List.length_cons,
          List.length_nil] at hlen'
        omega))
      simpa using h2
    have hstep92 : stepByte ({ t with buf := (27 :: 93 :: 56 :: 59 :: (l.params ++ 59 :: l.uri)) ++ [27], state := .stCandidate, prevState := .oscS }) 92 =
        (({ t with buf := [], state := .ground, prevState := .oscS, inOSC8 := true } : AnsiTokenizer),
          [{ kind := .osc8, data := ((27 :: 93 :: 56 :: 59 :: (l.params ++ 59 :: l.uri)) ++ [27]) ++ [92], isEnd := false }]) :=
      stepByte_st_emit _ false rfl rfl hparse
    have hfb92 : feedByte ({ t with buf := (27 :: 93 :: 56 :: 59 :: (l.params ++ 59 :: l.uri)) ++ [27], state := .stCandidate, prevState := .oscS }) 92 =
        (({ t with buf := [], state := .ground, prevState := .oscS, inOSC8 := true } : AnsiTokenizer),
          [{ kind := .osc8, data := ((27 :: 93 :: 56 :: 59 :: (l.params ++ 59 :: l.uri)) ++ [27]) ++ [92], isEnd := false }]) := by
      have h2 := feedByte_parts _ _ _ _ _ _ hstep92 (capCheck_small _ (by simp))
      simpa using h2
    rw [show oscTerm false = [27, 92] from rfl,
      feedLoop_cons_silent _ _ _ _ hfb27, feedLoop_singleton _ _ _ _ hfb92]
    simp [List.append_assoc]

theorem feedLoop_cons_toks (t t' : AnsiTokenizer) (b : Nat) (toks : List Token)
    (rest : List Nat) (h : feedByte t b = (t', toks)) :
    feedLoop t (b :: rest) =
      ((feedLoop t' rest).1, toks ++ (feedLoop t' rest).2) := by
  show (let r1 := feedByte t b
    let r2 := feedLoop r1.1 rest
    (r2.1, r1.2 ++ r2.2)) = _
  simp [h]

theorem c2aux_close (l : OSC8Link) (t : AnsiTokenizer)
    (ht : t.state = .ground) :
    feedLoop t (renderClose l) =
      ({ t with buf := [], state := .ground, prevState := if l.useBel then t.prevState else .oscS, inOSC8 := false },
        (if t.buf = [] then [] else [{ kind := .text, data := t.buf : Token }]) ++
          [{ kind := .osc8, data := renderClose l, isEnd := true }]) := by
  have hsplit : renderClose l =
      27 :: (93 :: ([56, 59, 59] ++ oscTerm l.useBel)) := by
    simp [renderClose]
  have hfb1 : feedByte t 27 = ({ t with buf := [27], state := .escS },
      if t.buf = [] then [] else [{ kind := .text, data := t.buf : Token }]) := by
    have h1 := stepByte_ground_esc t ht
    have h2 := feedByte_parts _ _ _ _ _ _ h1 (capCheck_small _ (by simp))
    simpa using h2
  have hfb2 : feedByte ({ t with buf := [27], state := .escS }) 93 =
      ({ t with buf := [27, 93], state := .oscS }, []) := by
    have h1 : stepByte ({ t with buf := [27], state := .escS }) 93 =
        (({ t with buf := [27, 93], state := .oscS } : AnsiTokenizer), []) :=
      stepByte_esc_osc _ rfl
    exact feedByte_parts _ _ _ _ _ _ h1 (capCheck_small _ (by simp))
  have hacc : feedLoop ({ t with buf := [27, 93], state := .oscS })
      [56, 59, 59] =
      (({ t with buf := [27, 93, 56, 59, 59], state := .oscS } :
        AnsiTokenizer), []) :=
    feedLoop_osc_accum _ _ rfl (by decide) (by
      show ([27, 93] : List Nat).length + ([56, 59, 59] : List Nat).length ≤ 4096
      simp)
  rw [hsplit, feedLoop_cons_toks _ _ _ _ _ hfb1,
    feedLoop_cons_silent _ _ _ _ hfb2, feedLoop_append]
  simp only [hacc]
  cases hub : l.useBel with
  | true =>
    have hstep : stepByte ({ t with buf := [27, 93, 56, 59, 59], state := .oscS }) 7 =
        (({ t with buf := [], state := .ground, inOSC8 := false } : AnsiTokenizer),
          [{ kind := .osc8, data := [27, 93, 56, 59, 59] ++ [7], isEnd := true }]) := by
      have hp : parseOSC8 (extractOSCData (([27, 93, 56, 59, 59] : List Nat) ++ [7])) = some true := by decide
      exact stepByte_osc_bel _ true rfl hp
    have hfb : feedByte ({ t with buf := [27, 93, 56, 59, 59], state := .oscS }) 7 =
        (({ t with buf := [], state := .ground, inOSC8 := false } : AnsiTokenizer),
          [{ kind := .osc8, data := [27, 93, 56, 59, 59] ++ [7], isEnd := true }]) := by
      have h2 := feedByte_parts _ _ _ _ _ _ hstep (capCheck_small _ (by simp))
      simpa using h2
    rw [show oscTerm true = [7] from rfl, feedLoop_singleton _ _ _ _ hfb]
    simp
  | false =>
    have hstep27 : stepByte ({ t with buf := [27, 93, 56, 59, 59], state := .oscS }) 27 =
        (({ t with buf := [27, 93, 56, 59, 59] ++ [27], state := .stCandidate, prevState := .oscS } : AnsiTokenizer),
          []) :=
      stepByte_osc_esc _ rfl
    have hfb27 : feedByte ({ t with buf := [27, 93, 56, 59, 59], state := .oscS }) 27 =
        (({ t with buf := [27, 93, 56, 59, 59] ++ [27], state := .stCandidate, prevState := .oscS } : AnsiTokenizer),
          []) := by
      have h2 := feedByte_parts _ _ _ _ _ _ hstep27 (capCheck_small _ (by simp))
      simpa using h2
    have hstep92 : stepByte ({ t with buf := [27, 93, 56, 59, 59] ++ [27], state := .stCandidate, prevState := .oscS }) 92 =
        (({ t with buf := [], state := .ground, prevState := .oscS, inOSC8 := false } : AnsiTokenizer),
          [{ kind := .osc8, data := ([27, 93, 56, 59, 59] ++ [27]) ++ [92], isEnd := true }]) := by
      have hp : parseOSC8 (extractOSCData ((([27, 93, 56, 59, 59] : List Nat) ++ [27]) ++ [92])) = some true := by decide
      exact stepByte_st_emit _ true rfl rfl hp
    have hfb92 : feedByte ({ t with buf := [27, 93, 56, 59, 59] ++ [27], state := .stCandidate, prevState := .oscS }) 92 =
        (({ t with buf := [], state := .ground, prevState := .oscS, inOSC8 := false } : AnsiTokenizer),
          [{ kind := .osc8, data := ([27, 93, 56, 59, 59] ++ [27]) ++ [92], isEnd := true }]) := by
      have h2 := feedByte_parts _ _ _ _ _ _ hstep92 (capCheck_small _ (by simp))
      simpa using h2
    rw [show oscTerm false = [27, 92] from rfl,
      feedLoop_cons_silent _ _ _ _ hfb27, feedLoop_singleton _ _ _ _ hfb92]
    simp

theorem c2aux_link (l : OSC8Link) (hwf : WFLink l) (t : AnsiTokenizer)
    (ht : t.state = .ground) (hbuf : t.buf = []) :
    feedLoop t (renderLink l) =
      ({ t with buf := [], state := .ground, prevState := if l.useBel then t.prevState else .oscS, inOSC8 := false },
        linkTokens l) := by
  have hopen := c2aux_open l hwf t ht hbuf
  have hinner27 : ∀ b ∈ l.inner, b ≠ 27 := hwf.2.2.2.1
  have hinlen : l.inner.length ≤ 4096 := hwf.2.2.2.2.2
  have hsplit : renderLink l = renderOpen l ++ (l.inner ++ renderClose l) := by
    simp [renderLink]
  have haccI : feedLoop ({ t with buf := [], state := .ground, prevState := if l.useBel then t.prevState else .oscS, inOSC8 := true }) l.inner =
      (({ t with buf := l.inner, state := .ground, prevState := if l.useBel then t.prevState else .oscS, inOSC8 := true } : AnsiTokenizer), []) :=
    feedLoop_ground_accum _ _ rfl hinner27 (by
      show ([] : List Nat).length + l.inner.length ≤ 4096
      simpa using hinlen)
  have hclose := c2aux_close l ({ t with buf := l.inner, state := .ground, prevState := if l.useBel then t.prevState else .oscS, inOSC8 := true }) rfl
  rw [hsplit, feedLoop_append]
  simp only [hopen]
  rw [feedLoop_append]
  simp only [haccI, hclose]
  cases hub : l.useBel <;> simp [linkTokens]

theorem c2aux_links (ls : List OSC8Link) (hwf : ∀ x ∈ ls, WFLink x) :
    ∀ t : AnsiTokenizer, t.state = .ground → t.buf = [] → t.inOSC8 = false →
      ∃ prev', feedLoop t (renderLinks ls) =
        ((⟨[], .ground, prev', t.sgr, false⟩ : AnsiTokenizer),
          linksTokens ls) := by
  induction ls with
  | nil =>
    intro t ht hbuf h8
    refine ⟨t.prevState, ?_⟩
    rcases t with ⟨buf, st, prev, sgr, in8⟩
    simp only [AnsiTokenizer.state] at ht
    simp only [AnsiTokenizer.buf] at hbuf
    simp only [AnsiTokenizer.inOSC8] at h8
    subst ht
    subst hbuf
    subst h8
    simp [renderLinks, linksTokens, feedLoop]
  | cons l rest ih =>
    intro t ht hbuf h8
    have hwl := hwf l (List.mem_cons_self l rest)
    have hsplit : renderLinks (l :: rest) = renderLink l ++ renderLinks rest := by
      simp [renderLinks]
    have hlink := c2aux_link l hwl t ht hbuf
    obtain ⟨prev', hrest⟩ := ih (fun x hx => hwf x (List.mem_cons_of_mem _ hx))
      ({ t with buf := [], state := .ground, prevState := if l.useBel then t.prevState else .oscS, inOSC8 := false })
      rfl rfl rfl
    refine ⟨prev', ?_⟩
    rw [hsplit, feedLoop_append]
    simp only [hlink, hrest]
    simp [linksTokens]

theorem writeTokens_append (po : List Nat → Bool → List Nat)
    (xs ys : List Token) :
    ∀ st : LinkerBState,
      writeTokens po st (xs ++ ys) =
        ((writeTokens po (writeTokens po st xs).1 ys).1,
          (writeTokens po st xs).2 ++
            (writeTokens po (writeTokens po st xs).1 ys).2) := by
  induction xs with
  | nil => intro st; simp [writeTokens]
  | cons tok rest ih =>
    intro st
    show (let r := writeTok po st tok
      let r2 := writeTokens po r.1 (rest ++ ys)
      (r2.1, r.2 ++ r2.2)) = _
    simp only [writeTokens, ih (writeTok po st tok).1, List.append_assoc]

theorem writeTokens_link (po : List Nat → Bool → List Nat) (l : OSC8Link)
    (st : LinkerBState) :
    writeTokens po st (linkTokens l) =
      ({ st with inOSC8 := false }, renderLink l) := by
  by_cases h : l.inner = [] <;>
    simp [linkTokens, writeTokens, writeTok, processTextBytes, renderLink, h]

theorem writeTokens_links (po : List Nat → Bool → List Nat)
    (ls : List OSC8Link) :
    ∀ st : LinkerBState, st.inOSC8 = false →
      writeTokens po st (linksTokens ls) = (st, renderLinks ls) := by
  induction ls with
  | nil =>
    intro st h8
    simp [linksTokens, renderLinks, writeTokens]
  | cons l rest ih =>
    intro st h8
    have hsplit : linksTokens (l :: rest) = linkTokens l ++ linksTokens rest := by
      simp [linksTokens]
    rcases st with ⟨sty, i8⟩
    simp only [LinkerBState.inOSC8] at h8
    subst h8
    rw [hsplit, writeTokens_append]
    simp only [writeTokens_link]
    have hr := ih ⟨sty, false⟩ rfl
    simp only [hr]
    simp [renderLinks]

/-- C2: on input consisting only of well-formed OSC 8 hyperlinks (opening
sequence with a non-empty URI, display text, closing sequence, each
terminated by BEL or ST and within the tokenizer's buffer cap), the
rewriter's output equals the input byte-for-byte, for every behaviour
`procOutside` of the outside-link text rewriting: the link sequences pass
through as OSC 8 tokens, and the display text is consumed while `inOSC8`
is true and is therefore written through unchanged. -/
theorem c2_osc8_passthrough (procOutside : List Nat → Bool → List Nat)
    (ls : List OSC8Link) (hwf : ∀ x ∈ ls, WFLink x) :
    linkerRun procOutside (renderLinks ls) = renderLinks ls := by
  obtain ⟨prev', hfeed⟩ := c2aux_links ls hwf NewAnsiTokenizer rfl rfl rfl
  have hFeed : NewAnsiTokenizer.Feed (renderLinks ls) =
      ((⟨[], .ground, prev', ⟨false, false, 0⟩, false⟩ : AnsiTokenizer),
        linksTokens ls) := by
    unfold AnsiTokenizer.Feed
    simp only [hfeed]
    simp [NewAnsiTokenizer]
  have hflush : ((⟨[], .ground, prev', ⟨false, false, 0⟩, false⟩ :
      AnsiTokenizer)).Flush =
      ((⟨[], .ground, prev', ⟨false, false, 0⟩, false⟩ : AnsiTokenizer),
        []) := by
    simp [AnsiTokenizer.Flush]
  have hw := writeTokens_links procOutside ls ⟨false, false⟩ rfl
  unfold linkerRun
  simp only [hFeed, hflush, hw, tokensData]
  simp

theorem c2_osc8_passthrough_witness :
    (∀ x ∈ [({ params := [105, 100], uri := [104, 105], inner := [111, 107], useBel := true } : OSC8Link),
        ({ params := [], uri := [47, 97], inner := [], useBel := false } : OSC8Link)], WFLink x) ∧
    linkerRun (fun d _ => d ++ [33])
        (renderLinks [({ params := [105, 100], uri := [104, 105], inner := [111, 107], useBel := true } : OSC8Link),
          ({ params := [], uri := [47, 97], inner := [], useBel := false } : OSC8Link)]) =
      renderLinks [({ params := [105, 100], uri := [104, 105], inner := [111, 107], useBel := true } : OSC8Link),
        ({ params := [], uri := [47, 97], inner := [], useBel := false } : OSC8Link)] := by
  have hwf : ∀ x ∈ [({ params := [105, 100], uri := [104, 105], inner := [111, 107], useBel := true } : OSC8Link),
      ({ params := [], uri := [47, 97], inner := [], useBel := false } : OSC8Link)], WFLink x := by
    intro x hx
    rcases List.mem_cons.mp hx with rfl | hx
    · exact ⟨by decide, by decide, by decide, by decide, by decide, by decide⟩
    rcases List.mem_cons.mp hx with rfl | hx
    · exact ⟨by decide, by decide, by decide, by decide, by decide, by decide⟩
    · exact absurd hx (List.not_mem_nil x)
  exact ⟨hwf, c2_osc8_passthrough (fun d _ => d ++ [33]) _ hwf⟩
